import Mathlib

/-!
# Snake (terminal grid game): shallow embedding of `snake.c`

The C program keeps a snake (array of grid cells plus bookkeeping fields), a
food cell and the grid extent.  Every function below mirrors one function (or
one block of `main`) of `snake.c`.

Machine integers: `unsigned int` values are naturals, `signed int` values are
integers; every conversion and every wrapping operation of the C code is
written out with `u32` / `i32`.  `rand()` is an explicit argument `rnd`.
-/

namespace SnakeGame

/-! ## Machine integers -/

/-- Number of values of `unsigned int` (2^32). -/
def UINT_MOD : Nat := 4294967296

/-- Largest `signed int` plus one (2^31). -/
def INT_LIM : Nat := 2147483648

/-- Conversion of an integer to `unsigned int`: reduction modulo 2^32. -/
def u32 (z : Int) : Nat := (z % 4294967296).toNat

/-- Conversion of an integer to `signed int`: two's complement wrap into
`[-2^31, 2^31)`. -/
def i32 (z : Int) : Int := (z + 2147483648) % 4294967296 - 2147483648

/-! ## Constants of `snake.c` -/

def DIR_UP : Nat := 0
def DIR_DOWN : Nat := 1
def DIR_LEFT : Nat := 2
def DIR_RIGHT : Nat := 3

def STARTING_DIRECTION : Nat := DIR_UP
def STARTING_LENGTH : Nat := 5
def STARTING_GROW_BY : Nat := 2
def GROW_BY_INCREMENT : Nat := 2

/-! ## Data model -/

/-- The C `struct GridCell` with two `signed int` fields. -/
structure GridCell where
  x : Int
  y : Int
deriving DecidableEq

/-- The C `struct Snake`.  The array `cells` and its element count `length`
are one list: `length` is `cells.length`. -/
structure Snake where
  new_direction : Nat
  direction : Nat
  grid_used_length : Nat
  grow_by : Nat
  cells : List GridCell
deriving DecidableEq

/-- The field `snake->length`. -/
def Snake.length (s : Snake) : Nat := s.cells.length

/-! ## `gen_random_number` and `rand_food_location` -/

/-- The C function `gen_random_number(min, max)`, with `rnd` the value
returned by `rand()`. -/
def gen_random_number (min max : Int) (rnd : Nat) : Int :=
  if min > max then 0
  else
    let length : Nat := u32 (max - min + 1)
    i32 (min + ((rnd % UINT_MOD) % length : Nat))

/-- The loop `for (j = 0; j < snake->length; j++)` of `rand_food_location`
and `regen_buffer`: is there a segment whose coordinates, converted to
`unsigned int`, equal `x` and `y`? -/
def snake_hits : List GridCell → Nat → Nat → Bool
  | [], _, _ => false
  | c :: cs, x, y => if u32 c.x = x ∧ u32 c.y = y then true else snake_hits cs x y

/-- State of the grid walk of `rand_food_location`: either the food has been
assigned (`return`), or the walk goes on with counters `i`, `the_grid_space`. -/
inductive ScanState where
  | found (food : GridCell)
  | going (i the_grid_space : Nat)
deriving DecidableEq

/-- The loop `for (x = 0; x < width; x++)` of `rand_food_location`; the first
argument is the number of iterations left (`width - x`). -/
def rand_food_row (cells : List GridCell) (width y : Nat) :
    Nat → Nat → Nat → Nat → ScanState
  | 0, _, i, the_grid_space => ScanState.going i the_grid_space
  | n + 1, x, i, the_grid_space =>
    if snake_hits cells x y then
      rand_food_row cells width y n (x + 1) ((i + 1) % UINT_MOD)
        ((the_grid_space + 1) % UINT_MOD)
    else if i = the_grid_space then
      ScanState.found ⟨i32 (the_grid_space % width : Nat), i32 (the_grid_space / width : Nat)⟩
    else
      rand_food_row cells width y n (x + 1) ((i + 1) % UINT_MOD) the_grid_space

/-- The loop `for (y = 0; y < height; y++)` of `rand_food_location`; the first
argument is the number of rows left (`height - y`). -/
def rand_food_rows (cells : List GridCell) (width : Nat) :
    Nat → Nat → Nat → Nat → ScanState
  | 0, _, i, the_grid_space => ScanState.going i the_grid_space
  | m + 1, y, i, the_grid_space =>
    match rand_food_row cells width y width 0 i the_grid_space with
    | ScanState.found food => ScanState.found food
    | ScanState.going i2 g2 => rand_food_rows cells width m (y + 1) i2 g2

/-- Lines 145-181 of `rand_food_location`: the grid walk started with
`the_grid_space = k`, ending in the fallback `(-1, -1)` when the walk runs
off the grid. -/
def rand_food_scan (cells : List GridCell) (width height k : Nat) : GridCell :=
  match rand_food_rows cells width height 0 0 k with
  | ScanState.found food => food
  | ScanState.going _ _ => ⟨-1, -1⟩

/-- The value of `the_grid_space` after line 127: `width * height -
grid_used_length` in `unsigned int` arithmetic. -/
def food_free_count (snake : Snake) (width height : Nat) : Nat :=
  u32 (((width * height) % UINT_MOD : Nat) - (snake.grid_used_length : Int))

/-- The value of `the_grid_space` after line 129: the random index drawn by
`gen_random_number(0, the_grid_space - 1)`. -/
def food_draw (snake : Snake) (width height rnd : Nat) : Nat :=
  u32 (gen_random_number 0 (i32 ((food_free_count snake width height : Int) - 1)) rnd)

/-- The C function `rand_food_location`; the result is the value assigned to
`*food`. -/
def rand_food_location (snake : Snake) (width height rnd : Nat) : GridCell :=
  rand_food_scan snake.cells width height (food_draw snake width height rnd)

/-! ## `regen_buffer` -/

/-- The glyph `regen_buffer` writes for the grid position `(x, y)`. -/
def regen_glyph (snake : Snake) (food : GridCell) (x y : Nat) : Char :=
  if snake_hits snake.cells x y then '+'
  else if u32 food.x = x ∧ u32 food.y = y then 'x'
  else ' '

/-- The loop `for (x = 0; x < width; x++)` of `regen_buffer`, appending to the
bytes written so far; the first argument is `width - x`. -/
def regen_row (snake : Snake) (food : GridCell) (y : Nat) :
    Nat → Nat → List Char → List Char
  | 0, _, buffer => buffer
  | n + 1, x, buffer => regen_row snake food y n (x + 1) (buffer ++ [regen_glyph snake food x y])

/-- The loop `for (y = 0; y < height; y++)` of `regen_buffer` (built without
`NOEXPLICITNEWLINES`): each row is followed by `'\n'` and `'\x0d'`. -/
def regen_rows (snake : Snake) (food : GridCell) (width : Nat) :
    Nat → Nat → List Char → List Char
  | 0, _, buffer => buffer
  | m + 1, y, buffer =>
    regen_rows snake food width m (y + 1)
      (regen_row snake food y width 0 buffer ++ [Char.ofNat 10, Char.ofNat 13])

/-- The C function `regen_buffer`: the characters of the NUL-terminated string
left in `buffer` (the terminating NUL itself is not part of the list). -/
def regen_buffer (snake : Snake) (food : GridCell) (width height : Nat) : List Char :=
  let buffer := regen_rows snake food width height 0 []
  if height > 0 then buffer.take (buffer.length - 2) else buffer

/-! ## `snake_append_cells` and `snake_crawl` -/

/-- The C function `snake_append_cells`: `length` grows by `num_to_add` in
`unsigned int` arithmetic, the array is reallocated to the new length and the
new slots are filled with copies of the former last cell. -/
def snake_append_cells (snake : Snake) (num_to_add : Nat) : Snake :=
  let i := snake.cells.length
  let last_cell_index := u32 ((i : Int) - 1)
  let new_length := (i + num_to_add) % UINT_MOD
  let last := snake.cells.getD last_cell_index ⟨0, 0⟩
  { snake with
    cells := if i ≤ new_length then snake.cells ++ List.replicate (new_length - i) last
             else snake.cells.take new_length }

/-- Lines 267-276 of `snake_crawl`: move the head one step in `direction`. -/
def crawl_move (head : GridCell) (direction : Nat) : GridCell :=
  if direction = DIR_UP then ⟨head.x, i32 (head.y - 1)⟩
  else if direction = DIR_DOWN then ⟨head.x, i32 (head.y + 1)⟩
  else if direction = DIR_LEFT then ⟨i32 (head.x - 1), head.y⟩
  else ⟨i32 (head.x + 1), head.y⟩

/-- Lines 278-287 of `snake_crawl`: the wrap-around chain. -/
def crawl_wrap (head : GridCell) (width height : Nat) : GridCell :=
  if head.x < 0 then ⟨i32 (head.x + width), head.y⟩
  else if u32 head.x ≥ width then ⟨i32 (head.x - width), head.y⟩
  else if head.y < 0 then ⟨head.x, i32 (head.y + height)⟩
  else if u32 head.y ≥ height then ⟨head.x, i32 (head.y - height)⟩
  else head

/-- The head cell computed by lines 259-287 of `snake_crawl`. -/
def crawl_head (snake : Snake) (width height : Nat) : GridCell :=
  crawl_wrap (crawl_move (snake.cells.headD ⟨0, 0⟩) snake.new_direction) width height

/-- Lines 265 and 294-296 of `snake_crawl`: commit the pending direction and
let one more grown segment count as used. -/
def crawl_commit (snake : Snake) : Snake :=
  { snake with
    direction := snake.new_direction
    grid_used_length :=
      if snake.grid_used_length < snake.cells.length then snake.grid_used_length + 1
      else snake.grid_used_length }

/-- Lines 301-302 of `snake_crawl`: the snake handed to `rand_food_location`
when food is consumed. -/
def crawl_consume (snake : Snake) : Snake :=
  let grown := snake_append_cells snake snake.grow_by
  { grown with grow_by := (grown.grow_by + GROW_BY_INCREMENT) % UINT_MOD }

/-- The body shift of lines 312-331: every slot takes the former content of
its predecessor, `prev` being the former content of the slot before. -/
def snake_shift : List GridCell → GridCell → List GridCell
  | [], _ => []
  | c :: cs, prev => prev :: snake_shift cs c

/-- Lines 306-331 of `snake_crawl`: slot 0 takes the new head, the remaining
slots are shifted, slot 1 taking `prev_cell`. -/
def crawl_cells (cells : List GridCell) (head_cell prev_cell : GridCell) : List GridCell :=
  match cells with
  | [] => []
  | _ :: rest => head_cell :: snake_shift rest prev_cell

/-- The C function `snake_crawl`; `rnd` is the value `rand()` returns if food
is placed during this tick.  The result is the new snake and the new food. -/
def snake_crawl (snake : Snake) (food : GridCell) (width height rnd : Nat) :
    Snake × GridCell :=
  let prev_cell := snake.cells.headD ⟨0, 0⟩
  let head_cell := crawl_head snake width height
  let moved := crawl_commit snake
  if head_cell.x = food.x ∧ head_cell.y = food.y then
    let grown := crawl_consume moved
    let new_food := rand_food_location grown width height rnd
    ({ grown with cells := crawl_cells grown.cells head_cell prev_cell }, new_food)
  else
    ({ moved with cells := crawl_cells moved.cells head_cell prev_cell }, food)

/-! ## `main`: initial snake and key handling -/

/-- The body of the loop of lines 506-520 of `main` for index `i`. -/
def main_cell (c0 : GridCell) (i : Nat) : GridCell :=
  if STARTING_DIRECTION = DIR_UP then ⟨c0.x, i32 (c0.y + i)⟩
  else if STARTING_DIRECTION = DIR_DOWN then ⟨c0.x, i32 (c0.y - i)⟩
  else if STARTING_DIRECTION = DIR_LEFT then ⟨i32 (c0.x + i), c0.y⟩
  else ⟨i32 (c0.x - i), c0.y⟩

/-- Lines 494-521 of `main`: the initial snake on a grid of the given size. -/
def main_snake (grid_width grid_height : Nat) : Snake :=
  let c0 : GridCell := ⟨i32 (grid_width / 2 : Nat), i32 (grid_height / 2 : Nat)⟩
  { new_direction := STARTING_DIRECTION
    direction := STARTING_DIRECTION
    grid_used_length := STARTING_LENGTH
    grow_by := STARTING_GROW_BY
    cells := c0 :: (List.range' 1 (STARTING_LENGTH - 1)).map (main_cell c0) }

/-- Lines 593-634 of `main`: the reaction to one character read from the
terminal, on the flag `not_paused` and the snake.  `none` is the `break` of
the quit key. -/
def main_key (data : Char) (not_paused : Nat) (snake : Snake) : Option (Nat × Snake) :=
  if data = 'q' ∨ data = 'Q' then none
  else if data = 'e' ∨ data = 'E' then some (if not_paused = 0 then 1 else 0, snake)
  else if not_paused ≠ 0 then
    if data = 'w' ∨ data = 'W' then
      if snake.direction = DIR_UP ∨ snake.direction = DIR_LEFT ∨ snake.direction = DIR_RIGHT then
        some (not_paused, { snake with new_direction := DIR_UP })
      else some (not_paused, snake)
    else if data = 's' ∨ data = 'S' then
      if snake.direction = DIR_DOWN ∨ snake.direction = DIR_LEFT ∨ snake.direction = DIR_RIGHT then
        some (not_paused, { snake with new_direction := DIR_DOWN })
      else some (not_paused, snake)
    else if data = 'a' ∨ data = 'A' then
      if snake.direction = DIR_UP ∨ snake.direction = DIR_LEFT ∨ snake.direction = DIR_DOWN then
        some (not_paused, { snake with new_direction := DIR_LEFT })
      else some (not_paused, snake)
    else if data = 'd' ∨ data = 'D' then
      if snake.direction = DIR_UP ∨ snake.direction = DIR_RIGHT ∨ snake.direction = DIR_DOWN then
        some (not_paused, { snake with new_direction := DIR_RIGHT })
      else some (not_paused, snake)
    else some (not_paused, snake)
  else some (not_paused, snake)

/-! ## Vocabulary of the specification -/

/-- Spec 4.1, one axis of the wrap: "if an axis falls below 0, add the axis
extent; if at/above the extent, subtract it". -/
def wrap_axis_spec (v : Int) (extent : Nat) : Int :=
  if v < 0 then v + extent else if v ≥ extent then v - extent else v

/-- Spec 4.1 `GridGeometry.advance`, written from the words of the
specification: a unit step in the given direction, then each axis wrapped
independently. -/
def advance_spec (cell : GridCell) (direction width height : Nat) : GridCell :=
  let dx : Int := if direction = DIR_LEFT then -1 else if direction = DIR_RIGHT then 1 else 0
  let dy : Int := if direction = DIR_UP then -1 else if direction = DIR_DOWN then 1 else 0
  ⟨wrap_axis_spec (cell.x + dx) width, wrap_axis_spec (cell.y + dy) height⟩

/-- A cell lies inside the grid `[0,width) x [0,height)`. -/
def in_grid (c : GridCell) (width height : Nat) : Prop :=
  0 ≤ c.x ∧ c.x < width ∧ 0 ≤ c.y ∧ c.y < height

instance (c : GridCell) (width height : Nat) : Decidable (in_grid c width height) := by
  unfold in_grid; infer_instance

/-- The direction a key asks for: `w`/`s`/`a`/`d` in either case. -/
def key_direction (data : Char) : Option Nat :=
  if data = 'w' ∨ data = 'W' then some DIR_UP
  else if data = 's' ∨ data = 'S' then some DIR_DOWN
  else if data = 'a' ∨ data = 'A' then some DIR_LEFT
  else if data = 'd' ∨ data = 'D' then some DIR_RIGHT
  else none

/-- The exact reverse of a direction: up/down and left/right. -/
def reverse_direction (d : Nat) : Nat :=
  if d = DIR_UP then DIR_DOWN
  else if d = DIR_DOWN then DIR_UP
  else if d = DIR_LEFT then DIR_RIGHT
  else DIR_LEFT

/-- A value of the C type `signed int`. -/
def int_range (z : Int) : Prop := -2147483648 ≤ z ∧ z < 2147483648

instance (z : Int) : Decidable (int_range z) := by
  unfold int_range; infer_instance

/-- A `struct GridCell`: both fields hold a `signed int`. -/
def cell_valid (c : GridCell) : Prop := int_range c.x ∧ int_range c.y

instance (c : GridCell) : Decidable (cell_valid c) := by
  unfold cell_valid; infer_instance

/-- Some segment of the list is at the grid position `(x, y)`. -/
def occupied (cells : List GridCell) (x y : Nat) : Prop := ∃ c ∈ cells, c.x = x ∧ c.y = y

instance (cells : List GridCell) (x y : Nat) : Decidable (occupied cells x y) := by
  unfold occupied; infer_instance

/-- The line terminator of the frame text: newline, then carriage return. -/
def line_terminator : List Char := [Char.ofNat 10, Char.ofNat 13]

/-- Spec 4.4, one cell of the frame, written from the words of the
specification: the snake glyph if any segment occupies the cell, else the
food glyph if the food is there, else the blank glyph. -/
def render_glyph_spec (cells : List GridCell) (food : GridCell) (x y : Nat) : Char :=
  if occupied cells x y then '+' else if food.x = x ∧ food.y = y then 'x' else ' '

/-- Spec 4.4, the rows of the frame in row-major order: `height` rows of
`width` glyphs. -/
def render_rows_spec (snake : Snake) (food : GridCell) (width height : Nat) : List (List Char) :=
  (List.range height).map fun y =>
    (List.range width).map fun x => render_glyph_spec snake.cells food x y

/-- The cell with row-major grid index `i` on a grid of the given width. -/
def grid_cell (width i : Nat) : GridCell := ⟨(i % width : Nat), (i / width : Nat)⟩

/-- The row-major grid index of a cell on a grid of the given width. -/
def cell_index (width : Nat) (c : GridCell) : Nat := c.y.toNat * width + c.x.toNat

/-- The row-major grid indices of the cells not occupied by any segment, in
increasing order: entry `k` is the `k`-th (0-based) unoccupied cell. -/
def free_cells (cells : List GridCell) (width height : Nat) : List Nat :=
  (List.range (width * height)).filter fun i =>
    decide (¬ occupied cells (i % width) (i / width))

/-- The test of `rand_food_location` at the cell of row-major index `i`. -/
def hit_at (cells : List GridCell) (width i : Nat) : Bool :=
  snake_hits cells (i % width) (i / width)

/-- Among the `n` indices from `i` on, the `k`-th one at which `p` is false. -/
def kth_free (p : Nat → Bool) : Nat → Nat → Nat → Option Nat
  | 0, _, _ => none
  | n + 1, i, k =>
    if p i then kth_free p n (i + 1) k
    else if k = 0 then some i
    else kth_free p n (i + 1) (k - 1)

/-- Among the `n` indices from `i` on, the number of those at which `p` is true. -/
def count_hits (p : Nat → Bool) : Nat → Nat → Nat
  | 0, _ => 0
  | n + 1, i => (if p i then 1 else 0) + count_hits p n (i + 1)

/-- The row-major grid indices of the cells occupied by some segment. -/
def occupied_cells (cells : List GridCell) (width height : Nat) : List Nat :=
  (List.range (width * height)).filter fun i =>
    decide (occupied cells (i % width) (i / width))

/-- The snake handed to `rand_food_location` on a 10x10 grid after the keys
`a`, `s`, `d` (one tick after each) and one more tick onto the food at (6,6):
the head has run a 2x2 loop onto the cell of segment 4. -/
def loop_snake : Snake :=
  { new_direction := DIR_RIGHT
    direction := DIR_RIGHT
    grid_used_length := 5
    grow_by := 4
    cells := [⟨5, 6⟩, ⟨4, 6⟩, ⟨4, 5⟩, ⟨5, 5⟩, ⟨5, 6⟩, ⟨5, 6⟩, ⟨5, 6⟩] }

/-- The states (snake, food) reachable on a `width x height` grid: the state
`main` builds (initial snake, food placed by `rand_food_location`), closed
under ticks (`snake_crawl`, any random draw) and under key presses handled by
`main` (any character, any value of the pause flag). -/
inductive Reachable (width height : Nat) : Snake → GridCell → Prop where
  | init (rnd : Nat) :
      Reachable width height (main_snake width height)
        (rand_food_location (main_snake width height) width height rnd)
  | tick (s : Snake) (food : GridCell) (rnd : Nat) :
      Reachable width height s food →
      Reachable width height (snake_crawl s food width height rnd).1
        (snake_crawl s food width height rnd).2
  | key (s : Snake) (food : GridCell) (data : Char) (not_paused np2 : Nat) (s2 : Snake) :
      Reachable width height s food →
      main_key data not_paused s = some (np2, s2) →
      Reachable width height s2 food

/-- The snakes handed to `rand_food_location`: the initial snake in `main`,
and, in a tick from a reachable state whose advanced head is on the food, the
snake after lines 265-302 of `snake_crawl`. -/
inductive PlacementCall (width height : Nat) : Snake → Prop where
  | init : PlacementCall width height (main_snake width height)
  | tick (s : Snake) (food : GridCell) :
      Reachable width height s food →
      crawl_head s width height = food →
      PlacementCall width height (crawl_consume (crawl_commit s))

/-- All segments from index `n` on lie on one cell. -/
def tail_same (cells : List GridCell) (n : Nat) : Prop :=
  ∀ a ∈ cells.drop n, ∀ b ∈ cells.drop n, a = b

/-- Invariant of the snake between ticks: the segments not yet counted by
`grid_used_length` all lie on one cell. -/
def tick_inv (s : Snake) : Prop :=
  1 ≤ s.grid_used_length ∧ tail_same s.cells s.grid_used_length ∧
    (∀ c ∈ s.cells, cell_valid c) ∧ s.cells.length < UINT_MOD

/-- Invariant of the snake handed to `rand_food_location`: the segments from
index `grid_used_length - 1` on all lie on one cell. -/
def placement_inv (s : Snake) : Prop :=
  1 ≤ s.grid_used_length ∧ tail_same s.cells (s.grid_used_length - 1) ∧
    (∀ c ∈ s.cells, cell_valid c) ∧ s.cells.length < UINT_MOD

/-! ## `game_loop`: the sleep computation -/

/-- The build-time tick interval in milliseconds. -/
def DELAY_TIME_MS : Nat := 150

/-- The C `struct timeval`: seconds and microseconds. -/
structure timeval where
  tv_sec : Int
  tv_usec : Int
deriving DecidableEq

/-- The C `struct timespec`: seconds and nanoseconds. -/
structure timespec where
  tv_sec : Int
  tv_nsec : Int
deriving DecidableEq

/-- Lines 339-341 of `game_loop`: the target interval for a tick interval of
`delay_time_ms` milliseconds. -/
def target_sleep_time (delay_time_ms : Nat) : timespec :=
  ⟨(delay_time_ms / 1000 : Nat), ((delay_time_ms % 1000) * 1000000 : Nat)⟩

/-- Lines 386-393 of `game_loop`: the processing time, left in
`loop_end_time`. -/
def loop_elapsed (loop_start_time loop_end_time : timeval) : timeval :=
  let borrowed : timeval :=
    if loop_end_time.tv_usec < loop_start_time.tv_usec then
      ⟨loop_end_time.tv_sec - 1, loop_end_time.tv_usec + (1000000 - loop_start_time.tv_usec)⟩
    else
      ⟨loop_end_time.tv_sec, loop_end_time.tv_usec - loop_start_time.tv_usec⟩
  ⟨borrowed.tv_sec - loop_start_time.tv_sec, borrowed.tv_usec⟩

/-- Lines 395-415 of `game_loop`: the time handed to `nanosleep`, from the
target interval and the processing time. -/
def actual_sleep_time (target : timespec) (elapsed : timeval) : timespec :=
  if (elapsed.tv_sec = target.tv_sec ∧ elapsed.tv_usec * 1000 < target.tv_nsec) ∨
      elapsed.tv_sec < target.tv_sec then
    let tv_sec := target.tv_sec - elapsed.tv_sec
    let branch : timespec :=
      if elapsed.tv_usec * 1000 > target.tv_nsec then
        ⟨tv_sec - 1, (1000000 - elapsed.tv_usec) * 1000 + target.tv_nsec⟩
      else
        ⟨tv_sec, target.tv_nsec - elapsed.tv_usec * 1000⟩
    ⟨branch.tv_sec, target.tv_nsec - elapsed.tv_usec * 1000⟩
  else ⟨0, 0⟩

/-- The sleep duration `game_loop` computes for a tick that started at
`loop_start_time` and ended at `loop_end_time`. -/
def game_loop_sleep (delay_time_ms : Nat) (loop_start_time loop_end_time : timeval) : timespec :=
  actual_sleep_time (target_sleep_time delay_time_ms) (loop_elapsed loop_start_time loop_end_time)

/-- The time between two timestamps, in nanoseconds. -/
def elapsed_ns (loop_start_time loop_end_time : timeval) : Int :=
  (loop_end_time.tv_sec - loop_start_time.tv_sec) * 1000000000 +
    (loop_end_time.tv_usec - loop_start_time.tv_usec) * 1000

/-- The predicate of the length invariants: at least 2 segments, and
`grid_used_length` at most the number of segments. -/
def length_inv (s : Snake) : Prop := 2 ≤ s.length ∧ s.grid_used_length ≤ s.length

instance (s : Snake) : Decidable (length_inv s) := by
  unfold length_inv; infer_instance

/-- Two cells are the same cell, or the first is one wrap-around unit step
(in one of the four directions) away from the second. -/
def unit_apart (width height : Nat) (a b : GridCell) : Prop :=
  a = b ∨ ∃ d ∈ [DIR_UP, DIR_DOWN, DIR_LEFT, DIR_RIGHT], a = advance_spec b d width height

instance (width height : Nat) (a b : GridCell) : Decidable (unit_apart width height a b) := by
  unfold unit_apart; infer_instance

/-- The snake is a connected path under the wrap topology: the head is the
advance of segment 1 in the committed direction, and consecutive segments are
on the same cell or one wrap-around unit step apart. -/
def connected_path (s : Snake) (width height : Nat) : Prop :=
  (∀ c0 c1 rest, s.cells = c0 :: c1 :: rest →
    c0 = advance_spec c1 s.direction width height) ∧
  List.Chain' (unit_apart width height) s.cells

/-- Every segment of the snake lies inside the grid. -/
def cells_in_grid (s : Snake) (width height : Nat) : Prop :=
  ∀ c ∈ s.cells, in_grid c width height

instance (s : Snake) (width height : Nat) : Decidable (cells_in_grid s width height) := by
  unfold cells_in_grid; infer_instance

/-- Invariant of the directions: both are one of the four values and the
pending one is not the reverse of the committed one. -/
def direction_inv (s : Snake) : Prop :=
  s.direction ≤ 3 ∧ s.new_direction ≤ 3 ∧ s.new_direction ≠ reverse_direction s.direction

/-- Invariant of head and neck: the head lies inside the grid, and so does
segment 1, from which the head is the advance in the committed direction. -/
def neck_inv (s : Snake) (width height : Nat) : Prop :=
  (∀ c ∈ s.cells.head?, in_grid c width height) ∧
  ∀ c0 c1 rest, s.cells = c0 :: c1 :: rest →
    in_grid c1 width height ∧ c0 = advance_spec c1 s.direction width height

/-! ## `game_loop`: the order of the calls of one iteration -/

/-- The signals `main` and `game_loop` put into signal masks. -/
inductive Signal where
  | SIGWINCH
  | USIG_PAUSE
  | USIG_P_ACK
deriving DecidableEq

/-- Lines 451-456 of `main`: the signals blocked with `sigprocmask(SIG_BLOCK,
...)` before `pthread_create`; the new thread inherits this mask. -/
def main_add_signal_mask : List Signal :=
  [Signal.SIGWINCH, Signal.USIG_PAUSE, Signal.USIG_P_ACK]

/-- The calls made by one iteration of the `while (1)` loop of `game_loop`,
named after what they do. -/
inductive LoopCall where
  | start_time
  | sem_wait
  | crawl
  | regen
  | write_frame
  | sem_post
  | end_time
  | cancel_enable
  | pause_unblock
  | compute_sleep
  | sleep
  | pause_block
  | cancel_disable
deriving DecidableEq

/-- What the calls of `game_loop` act on: whether the thread holds the guard
`sem0`, its cancellation state, and whether `USIG_PAUSE` is in its signal
mask. -/
structure ThreadState where
  guard_held : Bool
  cancel_enabled : Bool
  pause_blocked : Bool
deriving DecidableEq

/-- The effect of one call on the thread state: `sem_wai2` / `sem_post` on the
guard (`sem_wai2` retries `sem_wait` on `EINTR`, the only failure of a wait on
the initialised `sem0`, so it returns holding the guard),
`pthread_setcancelstate` on the cancellation state, `pthread_sigmask` on the
mask; the other calls leave it as it is. -/
def call_effect (c : LoopCall) (t : ThreadState) : ThreadState :=
  match c with
  | LoopCall.sem_wait => { t with guard_held := true }
  | LoopCall.sem_post => { t with guard_held := false }
  | LoopCall.cancel_enable => { t with cancel_enabled := true }
  | LoopCall.cancel_disable => { t with cancel_enabled := false }
  | LoopCall.pause_unblock => { t with pause_blocked := false }
  | LoopCall.pause_block => { t with pause_blocked := true }
  | _ => t

/-- Lines 354-428 of `game_loop`, the body of the loop in program order:
`gettimeofday`, `sem_wai2`, `snake_crawl`, `regen_buffer`, `dprintf` of the
frame, `sem_post`, `gettimeofday`, `pthread_setcancelstate(ENABLE)`,
`pthread_sigmask(SIG_UNBLOCK)`, the sleep computation, `nanosleep`,
`pthread_sigmask(SIG_BLOCK)`, `pthread_setcancelstate(DISABLE)`. -/
def game_loop_body : List LoopCall :=
  [LoopCall.start_time, LoopCall.sem_wait, LoopCall.crawl, LoopCall.regen,
   LoopCall.write_frame, LoopCall.sem_post, LoopCall.end_time, LoopCall.cancel_enable,
   LoopCall.pause_unblock, LoopCall.compute_sleep, LoopCall.sleep, LoopCall.pause_block,
   LoopCall.cancel_disable]

/-- The thread state on entry to the loop: the guard is not held,
cancellation was disabled by line 337, and the mask inherited from `main`
decides whether `USIG_PAUSE` is blocked. -/
def game_loop_entry : ThreadState :=
  { guard_held := false
    cancel_enabled := false
    pause_blocked := decide (Signal.USIG_PAUSE ∈ main_add_signal_mask) }

/-- The calls of a run in order, each with the thread state it is made in. -/
def run_calls : ThreadState → List LoopCall → List (LoopCall × ThreadState)
  | _, [] => []
  | t, c :: cs => (c, t) :: run_calls (call_effect c t) cs

/-- The thread state after a run of calls. -/
def end_state : ThreadState → List LoopCall → ThreadState
  | t, [] => t
  | t, c :: cs => end_state (call_effect c t) cs

/-- The calls of the first `n` iterations of the loop. -/
def game_loop_calls (n : Nat) : List LoopCall := (List.replicate n game_loop_body).flatten

/-- The program points of the first `n` iterations: every call with the
thread state it is made in. -/
def game_loop_trace (n : Nat) : List (LoopCall × ThreadState) :=
  run_calls game_loop_entry (game_loop_calls n)

/-! ## The frame buffer: allocation in `main`, bytes written by `regen_buffer` -/

/-- Line 489 of `main`: `buffer_size = (grid_width + 1) * grid_height *
sizeof(char) * 4`. The sum and the first product are `unsigned int`
operations; the products with `sizeof(char)` (1) and 4 are `size_t`
operations; the result is stored into an `unsigned int`. -/
def main_buffer_size (grid_width grid_height : Nat) : Nat :=
  ((((grid_width + 1) % UINT_MOD) * grid_height) % UINT_MOD * 1 * 4) % UINT_MOD

/-- The number of bytes of the frame buffer `regen_buffer` writes to: the two
loops write the bytes at offsets 0, 1, ... one after the other, and the
terminating NUL goes to the offset where the loops ended, two bytes back when
`height > 0`. -/
def regen_buffer_written (snake : Snake) (food : GridCell) (width height : Nat) : Nat :=
  let buffer := regen_rows snake food width height 0 []
  let nul_offset := if height > 0 then buffer.length - 2 else buffer.length
  max buffer.length (nul_offset + 1)

/-! ## Machine-integer lemmas -/

theorem i32_of_range (z : Int) (h1 : -2147483648 ≤ z) (h2 : z < 2147483648) : i32 z = z := by
  unfold i32; omega

theorem i32_range (z : Int) : -2147483648 ≤ i32 z ∧ i32 z < 2147483648 := by
  unfold i32; omega

theorem u32_of_nat (n : Nat) (h : n < 4294967296) : u32 n = n := by
  unfold u32; omega

theorem u32_lt (z : Int) : u32 z < 4294967296 := by
  unfold u32; omega

theorem u32_eq_iff (z : Int) (x : Nat) (h1 : -2147483648 ≤ z) (h2 : z < 2147483648)
    (hx : x < 2147483648) : u32 z = x ↔ z = x := by
  unfold u32; omega

/-! ## Movement: `snake_crawl` -/

theorem snake_shift_length (cells : List GridCell) (prev : GridCell) :
    (snake_shift cells prev).length = cells.length := by
  induction cells generalizing prev with
  | nil => rfl
  | cons c cs ih => simp [snake_shift, ih]

theorem crawl_cells_length (cells : List GridCell) (h p : GridCell) :
    (crawl_cells cells h p).length = cells.length := by
  cases cells with
  | nil => rfl
  | cons c cs => simp [crawl_cells, snake_shift_length]

theorem crawl_wrap_eq (c : GridCell) (width height : Nat)
    (hw : width < INT_LIM) (hh : height < INT_LIM)
    (hx : -1 ≤ c.x ∧ c.x ≤ width) (hy : -1 ≤ c.y ∧ c.y ≤ height)
    (hone : (0 ≤ c.x ∧ c.x < width) ∨ (0 ≤ c.y ∧ c.y < height)) :
    crawl_wrap c width height = ⟨wrap_axis_spec c.x width, wrap_axis_spec c.y height⟩ := by
  obtain ⟨x, y⟩ := c
  simp only [INT_LIM] at hw hh
  simp only at hx hy hone
  simp only [crawl_wrap, wrap_axis_spec, i32, u32]
  split_ifs <;> simp only [GridCell.mk.injEq, and_true, true_and] <;> omega

theorem crawl_move_eq (head : GridCell) (d : Nat) (hd : d ≤ 3)
    (hx : -2147483647 ≤ head.x ∧ head.x < 2147483647)
    (hy : -2147483647 ≤ head.y ∧ head.y < 2147483647) :
    crawl_move head d =
      ⟨head.x + (if d = DIR_LEFT then -1 else if d = DIR_RIGHT then 1 else 0),
       head.y + (if d = DIR_UP then -1 else if d = DIR_DOWN then 1 else 0)⟩ := by
  obtain ⟨x, y⟩ := head
  simp only at hx hy
  have e1 : i32 (x - 1) = x - 1 := i32_of_range _ (by omega) (by omega)
  have e2 : i32 (x + 1) = x + 1 := i32_of_range _ (by omega) (by omega)
  have e3 : i32 (y - 1) = y - 1 := i32_of_range _ (by omega) (by omega)
  have e4 : i32 (y + 1) = y + 1 := i32_of_range _ (by omega) (by omega)
  simp only [crawl_move, e1, e2, e3, e4, DIR_UP, DIR_DOWN, DIR_LEFT, DIR_RIGHT]
  clear e1 e2 e3 e4
  split_ifs <;> simp only [GridCell.mk.injEq, and_true, true_and] <;> omega

theorem crawl_move_other (head : GridCell) (d : Nat) (hd : 3 ≤ d) :
    crawl_move head d = crawl_move head DIR_RIGHT := by
  have h0 : d ≠ 0 := by omega
  have h1 : d ≠ 1 := by omega
  have h2 : d ≠ 2 := by omega
  simp [crawl_move, DIR_UP, DIR_DOWN, DIR_LEFT, DIR_RIGHT, h0, h1, h2]

theorem crawl_wrap_move_eq (head : GridCell) (d width height : Nat) (hd : d ≤ 3)
    (hw : width < INT_LIM) (hh : height < INT_LIM) (hin : in_grid head width height) :
    crawl_wrap (crawl_move head d) width height = advance_spec head d width height := by
  obtain ⟨hx0, hx1, hy0, hy1⟩ := hin
  have hw2 := hw
  have hh2 := hh
  simp only [INT_LIM] at hw2 hh2
  rw [crawl_move_eq head d hd (by omega) (by omega)]
  rw [crawl_wrap_eq _ width height hw hh]
  · rfl
  · simp only; split_ifs <;> omega
  · simp only; split_ifs <;> omega
  · simp only [DIR_UP, DIR_DOWN, DIR_LEFT, DIR_RIGHT]; split_ifs <;> omega

theorem advance_spec_in_grid (head : GridCell) (d width height : Nat)
    (hin : in_grid head width height) : in_grid (advance_spec head d width height) width height := by
  obtain ⟨hx0, hx1, hy0, hy1⟩ := hin
  simp only [in_grid, advance_spec, wrap_axis_spec]
  split_ifs <;> omega

theorem crawl_wrap_move_in_grid (head : GridCell) (d width height : Nat)
    (hw : width < INT_LIM) (hh : height < INT_LIM) (hin : in_grid head width height) :
    in_grid (crawl_wrap (crawl_move head d) width height) width height := by
  by_cases hd : d ≤ 3
  · rw [crawl_wrap_move_eq head d width height hd hw hh hin]
    exact advance_spec_in_grid head d width height hin
  · rw [crawl_move_other head d (by omega),
      crawl_wrap_move_eq head DIR_RIGHT width height (by decide) hw hh hin]
    exact advance_spec_in_grid head DIR_RIGHT width height hin

/-- C5. On a grid with extents below 2^31 (the range of `signed int`), for a
head inside the grid the move-and-wrap step of `snake_crawl` yields a cell
inside the grid: the unit step if that stays in range, else the opposite edge
(-1 becomes extent-1, extent becomes 0), the other axis unchanged. -/
theorem crawl_head_wraps (s : Snake) (head : GridCell) (rest : List GridCell)
    (width height : Nat) (hcells : s.cells = head :: rest)
    (hw : width < INT_LIM) (hh : height < INT_LIM) (hin : in_grid head width height) :
    in_grid (crawl_head s width height) width height ∧
    (s.new_direction = DIR_UP → crawl_head s width height =
      ⟨head.x, if head.y = 0 then (height : Int) - 1 else head.y - 1⟩) ∧
    (s.new_direction = DIR_DOWN → crawl_head s width height =
      ⟨head.x, if head.y + 1 = height then 0 else head.y + 1⟩) ∧
    (s.new_direction = DIR_LEFT → crawl_head s width height =
      ⟨if head.x = 0 then (width : Int) - 1 else head.x - 1, head.y⟩) ∧
    (s.new_direction = DIR_RIGHT → crawl_head s width height =
      ⟨if head.x + 1 = width then 0 else head.x + 1, head.y⟩) := by
  have hc : crawl_head s width height
      = crawl_wrap (crawl_move head s.new_direction) width height := by
    simp only [crawl_head, hcells, List.headD_cons]
  refine ⟨?_, ?_, ?_, ?_, ?_⟩
  · rw [hc]
    exact crawl_wrap_move_in_grid head s.new_direction width height hw hh hin
  all_goals
    intro hd
    rw [hc, hd, crawl_wrap_move_eq head _ width height (by decide) hw hh hin]
    obtain ⟨hx0, hx1, hy0, hy1⟩ := hin
    simp only [advance_spec, wrap_axis_spec, DIR_UP, DIR_DOWN, DIR_LEFT, DIR_RIGHT,
      GridCell.mk.injEq, OfNat.zero_ne_ofNat, zero_ne_one, one_ne_zero, OfNat.one_ne_ofNat,
      OfNat.ofNat_ne_zero, OfNat.ofNat_ne_one, reduceIte, add_zero, Nat.reduceEqDiff]
    constructor <;> split_ifs <;> omega

theorem crawl_head_wraps_witness :
    in_grid ⟨5, 0⟩ 10 10 ∧
    in_grid (crawl_head (main_snake 10 1) 10 10) 10 10 ∧
    crawl_head (main_snake 10 1) 10 10 = ⟨5, 9⟩ :=
  have h := crawl_head_wraps (main_snake 10 1) ⟨5, 0⟩ [⟨5, 1⟩, ⟨5, 2⟩, ⟨5, 3⟩, ⟨5, 4⟩] 10 10
    (by decide) (by decide) (by decide) (by decide)
  ⟨by decide, h.1, h.2.1 (by decide)⟩

theorem snake_crawl_cells (s : Snake) (food : GridCell) (width height rnd : Nat) :
    (snake_crawl s food width height rnd).1.cells =
      if crawl_head s width height = food then
        crawl_cells (crawl_consume (crawl_commit s)).cells (crawl_head s width height)
          (s.cells.headD ⟨0, 0⟩)
      else crawl_cells s.cells (crawl_head s width height) (s.cells.headD ⟨0, 0⟩) := by
  unfold snake_crawl
  by_cases h : crawl_head s width height = food
  · have h2 : (crawl_head s width height).x = food.x ∧ (crawl_head s width height).y = food.y := by
      rw [h]; exact ⟨rfl, rfl⟩
    simp only [h2, and_self, if_true, h]
  · have h2 : ¬((crawl_head s width height).x = food.x ∧ (crawl_head s width height).y = food.y) := by
      intro hc
      apply h
      cases hf : food
      cases hk : crawl_head s width height
      rw [hf, hk] at hc
      simp only at hc
      rw [hc.1, hc.2]
    simp only [h2, if_false, h, crawl_commit]

theorem snake_crawl_direction (s : Snake) (food : GridCell) (width height rnd : Nat) :
    (snake_crawl s food width height rnd).1.direction = s.new_direction := by
  unfold snake_crawl
  dsimp only
  split_ifs <;> rfl

theorem snake_append_cells_length (s : Snake) (n : Nat)
    (h : s.cells.length + n < UINT_MOD) :
    (snake_append_cells s n).cells.length = s.cells.length + n := by
  unfold snake_append_cells
  simp only [Nat.mod_eq_of_lt h, Nat.le_add_right, if_true, List.length_append,
    List.length_replicate]
  omega

/-- C6. For a snake of at least 2 segments whose head lies inside a grid with
extents below 2^31, and a food cell different from the advanced head, one
`snake_crawl` keeps the number of segments, commits the pending direction as
the direction, and puts `advance(old head, committed direction)` (the unit
step with wrap-around of the specification) into segment 0. -/
theorem crawl_without_food (s : Snake) (food head : GridCell) (rest : List GridCell)
    (width height rnd : Nat) (hcells : s.cells = head :: rest) (_hlen : 2 ≤ s.length)
    (hd : s.new_direction ≤ 3) (hw : width < INT_LIM) (hh : height < INT_LIM)
    (hin : in_grid head width height) (hfood : food ≠ crawl_head s width height) :
    (snake_crawl s food width height rnd).1.length = s.length ∧
    (snake_crawl s food width height rnd).1.direction = s.new_direction ∧
    (snake_crawl s food width height rnd).1.cells.head? =
      some (advance_spec head s.new_direction width height) := by
  have hc : crawl_head s width height = advance_spec head s.new_direction width height := by
    simp only [crawl_head, hcells, List.headD_cons]
    exact crawl_wrap_move_eq head s.new_direction width height hd hw hh hin
  have hne : ¬ crawl_head s width height = food := fun h => hfood h.symm
  have hcs := snake_crawl_cells s food width height rnd
  rw [if_neg hne] at hcs
  refine ⟨?_, ?_, ?_⟩
  · simp only [Snake.length, hcs, crawl_cells_length]
  · exact snake_crawl_direction s food width height rnd
  · rw [hcs, hcells, ← hc]
    rfl

theorem crawl_without_food_witness :
    (snake_crawl (main_snake 10 10) ⟨0, 0⟩ 10 10 7).1.length = 5 ∧
    (snake_crawl (main_snake 10 10) ⟨0, 0⟩ 10 10 7).1.direction = DIR_UP ∧
    (snake_crawl (main_snake 10 10) ⟨0, 0⟩ 10 10 7).1.cells.head? = some ⟨5, 4⟩ :=
  crawl_without_food (main_snake 10 10) ⟨0, 0⟩ ⟨5, 5⟩ [⟨5, 6⟩, ⟨5, 7⟩, ⟨5, 8⟩, ⟨5, 9⟩] 10 10 7
    (by decide) (by decide) (by decide) (by decide) (by decide) (by decide) (by decide)

theorem snake_crawl_food_grows (s : Snake) (food : GridCell) (width height rnd : Nat)
    (heat : crawl_head s width height = food)
    (hfit : s.length + s.grow_by < UINT_MOD)
    (hgrow : s.grow_by + GROW_BY_INCREMENT < UINT_MOD) :
    (snake_crawl s food width height rnd).1.length = s.length + s.grow_by ∧
    (snake_crawl s food width height rnd).1.grow_by = s.grow_by + GROW_BY_INCREMENT := by
  have hcs := snake_crawl_cells s food width height rnd
  rw [if_pos heat] at hcs
  have hx : (crawl_head s width height).x = food.x ∧ (crawl_head s width height).y = food.y := by
    rw [heat]; exact ⟨rfl, rfl⟩
  refine ⟨?_, ?_⟩
  · simp only [Snake.length, hcs, crawl_cells_length, crawl_consume]
    exact snake_append_cells_length (crawl_commit s) s.grow_by hfit
  · unfold snake_crawl
    simp only [hx, and_self, if_true, crawl_consume, snake_append_cells, crawl_commit]
    exact Nat.mod_eq_of_lt hgrow

/-- C7. For a snake of at least 2 segments whose advanced head equals the
food cell, one `snake_crawl` increases the number of segments by exactly the
`grow_by` held before the tick and increases `grow_by` by exactly
`GROW_BY_INCREMENT` (2), as long as both new values fit `unsigned int`. -/
theorem crawl_with_food (s : Snake) (food : GridCell) (width height rnd : Nat)
    (_hlen : 2 ≤ s.length) (heat : crawl_head s width height = food)
    (hfit : s.length + s.grow_by < UINT_MOD)
    (hgrow : s.grow_by + GROW_BY_INCREMENT < UINT_MOD) :
    (snake_crawl s food width height rnd).1.length = s.length + s.grow_by ∧
    (snake_crawl s food width height rnd).1.grow_by = s.grow_by + GROW_BY_INCREMENT ∧
    GROW_BY_INCREMENT = 2 :=
  have h := snake_crawl_food_grows s food width height rnd heat hfit hgrow
  ⟨h.1, h.2, rfl⟩

theorem crawl_with_food_witness :
    (snake_crawl (main_snake 10 10) ⟨5, 4⟩ 10 10 7).1.length = 5 + 2 ∧
    (snake_crawl (main_snake 10 10) ⟨5, 4⟩ 10 10 7).1.grow_by = 2 + 2 ∧
    GROW_BY_INCREMENT = 2 :=
  crawl_with_food (main_snake 10 10) ⟨5, 4⟩ 10 10 7 (by decide) (by decide) (by decide)
    (by decide)

/-! ## Direction keys -/

/-- C8. While not paused, for every committed direction (one of the four) and
every direction key (`w`/`s`/`a`/`d`, either case) asking for direction `d`,
the key handler of `main` leaves the pending direction as it is when `d` is
the exact reverse of the committed direction and sets it to `d` otherwise;
the committed direction, the other fields of the snake and the pause flag are
not modified. -/
theorem main_key_direction (s : Snake) (not_paused : Nat) (data : Char) (d : Nat)
    (hc : s.direction ≤ 3) (hnp : not_paused ≠ 0) (hk : key_direction data = some d) :
    main_key data not_paused s =
      some (not_paused,
        { s with new_direction :=
            if d = reverse_direction s.direction then s.new_direction else d }) := by
  obtain ⟨nd, dir, gul, gb, cells⟩ := s
  simp only at hc
  have hdir : dir = 0 ∨ dir = 1 ∨ dir = 2 ∨ dir = 3 := by omega
  unfold key_direction at hk
  unfold main_key
  simp only [DIR_UP, DIR_DOWN, DIR_LEFT, DIR_RIGHT, reverse_direction] at hk ⊢
  split_ifs at hk with h1 h2 h3 h4
  · have hq : ¬(data = 'q' ∨ data = 'Q') := by
      rcases h1 with h | h <;> subst h <;> decide
    have he : ¬(data = 'e' ∨ data = 'E') := by
      rcases h1 with h | h <;> subst h <;> decide
    simp only [Option.some.injEq] at hk
    subst hk
    simp only [hq, he, h1, hnp, if_true, if_false, ne_eq, not_false_eq_true]
    rcases hdir with h | h | h | h <;> subst h <;> simp
  · have hq : ¬(data = 'q' ∨ data = 'Q') := by
      rcases h2 with h | h <;> subst h <;> decide
    have he : ¬(data = 'e' ∨ data = 'E') := by
      rcases h2 with h | h <;> subst h <;> decide
    simp only [Option.some.injEq] at hk
    subst hk
    simp only [hq, he, h1, h2, hnp, if_true, if_false, ne_eq, not_false_eq_true]
    rcases hdir with h | h | h | h <;> subst h <;> simp
  · have hq : ¬(data = 'q' ∨ data = 'Q') := by
      rcases h3 with h | h <;> subst h <;> decide
    have he : ¬(data = 'e' ∨ data = 'E') := by
      rcases h3 with h | h <;> subst h <;> decide
    simp only [Option.some.injEq] at hk
    subst hk
    simp only [hq, he, h1, h2, h3, hnp, if_true, if_false, ne_eq, not_false_eq_true]
    rcases hdir with h | h | h | h <;> subst h <;> simp
  · have hq : ¬(data = 'q' ∨ data = 'Q') := by
      rcases h4 with h | h <;> subst h <;> decide
    have he : ¬(data = 'e' ∨ data = 'E') := by
      rcases h4 with h | h <;> subst h <;> decide
    simp only [Option.some.injEq] at hk
    subst hk
    simp only [hq, he, h1, h2, h3, h4, hnp, if_true, if_false, ne_eq, not_false_eq_true]
    rcases hdir with h | h | h | h <;> subst h <;> simp

theorem main_key_direction_witness :
    main_key 's' 1 (main_snake 10 10) = some (1, main_snake 10 10) ∧
    main_key 'A' 1 (main_snake 10 10) =
      some (1, { main_snake 10 10 with new_direction := DIR_LEFT }) :=
  ⟨main_key_direction (main_snake 10 10) 1 's' DIR_DOWN (by decide) (by decide) (by decide),
   main_key_direction (main_snake 10 10) 1 'A' DIR_LEFT (by decide) (by decide) (by decide)⟩

/-! ## The documented end-to-end run -/

/-- C9. On a 10x10 grid the snake built by `main` is the 5 segments
(5,5),(5,6),(5,7),(5,8),(5,9) with direction up and `grow_by` 2; one tick
without a direction change moves the head to (5,4), whatever the food and the
random draw; and with the food at (5,4) the snake has 7 segments and
`grow_by` 4 after that tick. -/
theorem main_run_10x10 :
    (main_snake 10 10).cells = [⟨5, 5⟩, ⟨5, 6⟩, ⟨5, 7⟩, ⟨5, 8⟩, ⟨5, 9⟩] ∧
    (main_snake 10 10).length = 5 ∧
    (main_snake 10 10).direction = DIR_UP ∧
    (main_snake 10 10).new_direction = DIR_UP ∧
    (main_snake 10 10).grow_by = 2 ∧
    (∀ food rnd, (snake_crawl (main_snake 10 10) food 10 10 rnd).1.cells.head? = some ⟨5, 4⟩) ∧
    (∀ rnd, (snake_crawl (main_snake 10 10) ⟨5, 4⟩ 10 10 rnd).1.length = 7 ∧
      (snake_crawl (main_snake 10 10) ⟨5, 4⟩ 10 10 rnd).1.grow_by = 4) := by
  refine ⟨by decide, by decide, by decide, by decide, by decide, ?_, ?_⟩
  · intro food rnd
    rw [snake_crawl_cells]
    split_ifs <;> rfl
  · intro rnd
    exact snake_crawl_food_grows (main_snake 10 10) ⟨5, 4⟩ 10 10 rnd (by decide) (by decide)
      (by decide)

/-! ## Rendering: `regen_buffer` -/

theorem snake_hits_iff (cells : List GridCell) (x y : Nat)
    (hv : ∀ c ∈ cells, cell_valid c) (hx : x < INT_LIM) (hy : y < INT_LIM) :
    snake_hits cells x y = true ↔ occupied cells x y := by
  simp only [INT_LIM] at hx hy
  induction cells with
  | nil => simp [snake_hits, occupied]
  | cons c cs ih =>
    have hc := hv c (List.mem_cons_self c cs)
    have hcs : ∀ d ∈ cs, cell_valid d := fun d hd => hv d (List.mem_cons_of_mem c hd)
    have ex := u32_eq_iff c.x x hc.1.1 hc.1.2 hx
    have ey := u32_eq_iff c.y y hc.2.1 hc.2.2 hy
    unfold snake_hits
    by_cases h : u32 c.x = x ∧ u32 c.y = y
    · simp only [h, and_self, if_true, true_iff]
      exact ⟨c, List.mem_cons_self c cs, ex.1 h.1, ey.1 h.2⟩
    · rw [if_neg h, ih hcs]
      unfold occupied
      constructor
      · rintro ⟨d, hd, hdx⟩
        exact ⟨d, List.mem_cons_of_mem c hd, hdx⟩
      · rintro ⟨d, hd, hdx⟩
        rcases List.mem_cons.1 hd with hdc | hdc
        · subst hdc
          exact absurd ⟨ex.2 hdx.1, ey.2 hdx.2⟩ h
        · exact ⟨d, hdc, hdx⟩

theorem regen_glyph_eq (s : Snake) (food : GridCell) (x y : Nat)
    (hv : ∀ c ∈ s.cells, cell_valid c) (hf : cell_valid food)
    (hx : x < INT_LIM) (hy : y < INT_LIM) :
    regen_glyph s food x y = render_glyph_spec s.cells food x y := by
  have hs := snake_hits_iff s.cells x y hv hx hy
  simp only [INT_LIM] at hx hy
  have ex := u32_eq_iff food.x x hf.1.1 hf.1.2 hx
  have ey := u32_eq_iff food.y y hf.2.1 hf.2.2 hy
  unfold regen_glyph render_glyph_spec
  by_cases ho : occupied s.cells x y
  · rw [if_pos (hs.2 ho), if_pos ho]
  · have hn : ¬ snake_hits s.cells x y = true := fun h => ho (hs.1 h)
    rw [if_neg hn, if_neg ho]
    simp only [ex, ey]

theorem regen_row_eq (s : Snake) (food : GridCell) (y n x : Nat) (buffer : List Char) :
    regen_row s food y n x buffer =
      buffer ++ (List.range' x n).map (fun x => regen_glyph s food x y) := by
  induction n generalizing x buffer with
  | zero => simp [regen_row]
  | succ n ih =>
    rw [regen_row, ih, List.range'_succ]
    simp

theorem regen_rows_eq (s : Snake) (food : GridCell) (width m y : Nat) (buffer : List Char) :
    regen_rows s food width m y buffer =
      buffer ++ ((List.range' y m).map (fun y =>
        (List.range' 0 width).map (fun x => regen_glyph s food x y) ++ line_terminator)).flatten := by
  induction m generalizing y buffer with
  | zero => simp [regen_rows]
  | succ m ih =>
    rw [regen_rows, ih, regen_row_eq, List.range'_succ]
    simp [line_terminator]

theorem flatten_terminated (sep : List Char) (rows : List (List Char)) (h : rows ≠ []) :
    (rows.map (fun r => r ++ sep)).flatten = List.intercalate sep rows ++ sep := by
  induction rows with
  | nil => exact absurd rfl h
  | cons r rs ih =>
    cases rs with
    | nil => simp [List.intercalate]
    | cons r2 rs2 =>
      have ih2 := ih (List.cons_ne_nil r2 rs2)
      rw [List.map_cons, List.flatten_cons, ih2]
      simp [List.intercalate]

/-- C10. For every snake and food (fields in `signed int` range) and every
width and height up to 2^31, the text left by `regen_buffer` is the row-major
rendering of the grid: `height` rows of exactly `width` glyphs, the glyph at
(x,y) being '+' if any segment of the full list is there, else 'x' if the food
is there, else ' ', the rows joined by the terminator (newline, carriage
return) with no terminator after the last row. -/
theorem regen_buffer_renders (s : Snake) (food : GridCell) (width height : Nat)
    (hv : ∀ c ∈ s.cells, cell_valid c) (hf : cell_valid food)
    (hw : width ≤ INT_LIM) (hh : height ≤ INT_LIM) :
    regen_buffer s food width height =
      List.intercalate line_terminator (render_rows_spec s food width height) ∧
    (render_rows_spec s food width height).length = height ∧
    (∀ row ∈ render_rows_spec s food width height, row.length = width) ∧
    line_terminator = ['\n', '\r'] := by
  refine ⟨?_, by simp [render_rows_spec], ?_, by decide⟩
  · have hrows : (List.range' 0 height).map (fun y =>
        (List.range' 0 width).map (fun x => regen_glyph s food x y))
        = render_rows_spec s food width height := by
      unfold render_rows_spec
      rw [List.range_eq_range', List.range_eq_range']
      apply List.map_congr_left
      intro y hy
      apply List.map_congr_left
      intro x hx
      have hx2 : x < width := by simpa using hx
      have hy2 : y < height := by simpa using hy
      exact regen_glyph_eq s food x y hv hf (by omega) (by omega)
    unfold regen_buffer
    by_cases h0 : height > 0
    · have hne : render_rows_spec s food width height ≠ [] := by
        intro hnil
        have hl : (render_rows_spec s food width height).length = height := by
          simp [render_rows_spec]
        rw [hnil] at hl
        simp at hl
        omega
      have hbuf : regen_rows s food width height 0 []
          = List.intercalate line_terminator (render_rows_spec s food width height)
            ++ line_terminator := by
        rw [regen_rows_eq, List.nil_append, ← flatten_terminated _ _ hne, ← hrows,
          List.map_map]
        rfl
      simp only [h0, if_true, hbuf]
      apply List.take_left'
      simp [line_terminator]
    · have hz : height = 0 := by omega
      subst hz
      simp [regen_rows, render_rows_spec, List.intercalate]
  · intro row hrow
    simp only [render_rows_spec, List.mem_map] at hrow
    obtain ⟨y, _, rfl⟩ := hrow
    simp

theorem regen_buffer_renders_witness :
    regen_buffer (main_snake 3 3) ⟨0, 0⟩ 3 3 =
      List.intercalate line_terminator (render_rows_spec (main_snake 3 3) ⟨0, 0⟩ 3 3) :=
  (regen_buffer_renders (main_snake 3 3) ⟨0, 0⟩ 3 3 (by decide) (by decide) (by decide)
    (by decide)).1

/-! ## Food placement: the grid walk of `rand_food_location` -/

theorem kth_free_none (p : Nat → Bool) (n i k : Nat) (h : kth_free p n i k = none) :
    n ≤ k + count_hits p n i := by
  induction n generalizing i k with
  | zero => simp
  | succ n ih =>
    unfold kth_free at h
    unfold count_hits
    by_cases hp : p i = true
    · rw [if_pos hp] at h
      have := ih (i + 1) k h
      rw [if_pos hp]
      omega
    · rw [if_neg hp] at h
      rw [if_neg hp]
      by_cases hk : k = 0
      · rw [if_pos hk] at h
        exact absurd h (by simp)
      · rw [if_neg hk] at h
        have := ih (i + 1) (k - 1) h
        omega

theorem count_hits_add (p : Nat → Bool) (a b i : Nat) :
    count_hits p (a + b) i = count_hits p a i + count_hits p b (i + a) := by
  induction a generalizing i with
  | zero => simp [count_hits]
  | succ a ih =>
    have e : a + 1 + b = (a + b) + 1 := by omega
    rw [e]
    simp only [count_hits]
    rw [ih (i + 1)]
    have e2 : i + 1 + a = i + (a + 1) := by omega
    rw [e2]
    omega

theorem kth_free_add (p : Nat → Bool) (a b i k : Nat) :
    kth_free p (a + b) i k =
      match kth_free p a i k with
      | some j => some j
      | none => kth_free p b (i + a) (k + count_hits p a i - a) := by
  induction a generalizing i k with
  | zero => simp [kth_free, count_hits]
  | succ a ih =>
    have e : a + 1 + b = (a + b) + 1 := by omega
    have e2 : i + 1 + a = i + (a + 1) := by omega
    rw [e]
    simp only [kth_free, count_hits]
    cases hp : p i
    · simp only [Bool.false_eq_true, if_false]
      by_cases hk : k = 0
      · simp only [hk, if_true]
      · simp only [hk, if_false]
        rw [ih (i + 1) (k - 1), e2]
        have e3 : k + (0 + count_hits p a (i + 1)) - (a + 1)
            = k - 1 + count_hits p a (i + 1) - a := by omega
        rw [e3]
    · simp only [if_true]
      rw [ih (i + 1) k, e2]
      have e3 : k + (1 + count_hits p a (i + 1)) - (a + 1) = k + count_hits p a (i + 1) - a := by
        omega
      rw [e3]

theorem kth_free_getElem (p : Nat → Bool) (n i k : Nat) :
    kth_free p n i k = ((List.range' i n).filter (fun j => !p j))[k]? := by
  induction n generalizing i k with
  | zero => simp [kth_free]
  | succ n ih =>
    rw [List.range'_succ, List.filter_cons]
    unfold kth_free
    by_cases hp : p i = true
    · simp only [hp, if_true, Bool.not_true, Bool.false_eq_true, if_false]
      exact ih (i + 1) k
    · simp only [hp, if_false, Bool.not_eq_true] at *
      simp only [hp, Bool.not_false, if_true, Bool.false_eq_true, if_false]
      cases k with
      | zero => simp
      | succ k =>
        simp only [Nat.add_one_ne_zero, if_false, List.getElem?_cons_succ,
          Nat.add_sub_cancel]
        exact ih (i + 1) k

theorem count_hits_free (p : Nat → Bool) (n i : Nat) :
    ((List.range' i n).filter (fun j => !p j)).length + count_hits p n i = n := by
  induction n generalizing i with
  | zero => simp [count_hits]
  | succ n ih =>
    rw [List.range'_succ, List.filter_cons]
    unfold count_hits
    have := ih (i + 1)
    by_cases hp : p i = true
    · simp only [hp, Bool.not_true, Bool.false_eq_true, if_false, if_true]
      omega
    · simp only [Bool.not_eq_true] at hp
      simp only [hp, Bool.not_false, if_true, List.length_cons, Bool.false_eq_true, if_false]
      omega

theorem hit_at_index (cells : List GridCell) (w y x : Nat) (hx : x < w) :
    hit_at cells w (y * w + x) = snake_hits cells x y := by
  unfold hit_at
  have hm : (y * w + x) % w = x := by
    rw [Nat.add_comm, Nat.add_mul_mod_self_right, Nat.mod_eq_of_lt hx]
  have hd : (y * w + x) / w = y := by
    rw [Nat.add_comm, Nat.add_mul_div_right _ _ (by omega), Nat.div_eq_of_lt hx, Nat.zero_add]
  rw [hm, hd]

theorem rand_food_row_eq (cells : List GridCell) (w y n x i g : Nat)
    (hi : i = y * w + x) (hx : x + n ≤ w) (hig : i ≤ g) (hin : i + n < UINT_MOD)
    (hg : g + count_hits (hit_at cells w) n i < UINT_MOD) :
    rand_food_row cells w y n x i g =
      match kth_free (hit_at cells w) n i (g - i) with
      | some j => ScanState.found ⟨i32 (j % w : Nat), i32 (j / w : Nat)⟩
      | none => ScanState.going (i + n) (g + count_hits (hit_at cells w) n i) := by
  induction n generalizing x i g with
  | zero => simp [rand_food_row, kth_free, count_hits]
  | succ n ih =>
    have hp : hit_at cells w i = snake_hits cells x y := by
      rw [hi]; exact hit_at_index cells w y x (by omega)
    unfold count_hits at hg
    unfold rand_food_row kth_free count_hits
    rw [hp] at hg ⊢
    cases hs : snake_hits cells x y
    · simp only [hs, Bool.false_eq_true, if_false, Nat.zero_add] at hg ⊢
      have e1 : (i + 1) % UINT_MOD = i + 1 := Nat.mod_eq_of_lt (by omega)
      by_cases hgi : i = g
      · subst hgi
        simp
      · have hk : g - i ≠ 0 := by omega
        rw [if_neg hgi, if_neg hk, e1,
          ih (x + 1) (i + 1) g (by omega) (by omega) (by omega) (by omega) hg]
        have e2 : g - (i + 1) = g - i - 1 := by omega
        have e3 : i + 1 + n = i + (n + 1) := by omega
        rw [e2, e3]
    · simp only [hs, if_true] at hg ⊢
      have e1 : (i + 1) % UINT_MOD = i + 1 := Nat.mod_eq_of_lt (by omega)
      have e0 : (g + 1) % UINT_MOD = g + 1 := Nat.mod_eq_of_lt (by omega)
      rw [e1, e0, ih (x + 1) (i + 1) (g + 1) (by omega) (by omega) (by omega) (by omega)
        (by omega)]
      have e2 : g + 1 - (i + 1) = g - i := by omega
      have e3 : i + 1 + n = i + (n + 1) := by omega
      have e4 : g + 1 + count_hits (hit_at cells w) n (i + 1)
          = g + (1 + count_hits (hit_at cells w) n (i + 1)) := by omega
      rw [e2, e3, e4]

theorem rand_food_rows_eq (cells : List GridCell) (w m y i g : Nat)
    (hi : i = y * w) (hig : i ≤ g) (hin : i + m * w < UINT_MOD)
    (hg : g + count_hits (hit_at cells w) (m * w) i < UINT_MOD) :
    rand_food_rows cells w m y i g =
      match kth_free (hit_at cells w) (m * w) i (g - i) with
      | some j => ScanState.found ⟨i32 (j % w : Nat), i32 (j / w : Nat)⟩
      | none => ScanState.going (i + m * w) (g + count_hits (hit_at cells w) (m * w) i) := by
  induction m generalizing y i g with
  | zero => simp [rand_food_rows, kth_free, count_hits]
  | succ m ih =>
    have e : (m + 1) * w = w + m * w := by rw [Nat.add_mul, Nat.one_mul, Nat.add_comm]
    rw [e] at hin hg ⊢
    rw [count_hits_add] at hg
    unfold rand_food_rows
    rw [rand_food_row_eq cells w y w 0 i g (by omega) (by omega) hig (by omega) (by omega),
      kth_free_add, count_hits_add]
    cases hk : kth_free (hit_at cells w) w i (g - i) with
    | some j => rfl
    | none =>
      have hn := kth_free_none _ _ _ _ hk
      simp only
      rw [ih (y + 1) (i + w) (g + count_hits (hit_at cells w) w i)
        (by rw [hi, Nat.add_mul, Nat.one_mul]) (by omega) (by omega) (by omega)]
      have e2 : g + count_hits (hit_at cells w) w i - (i + w)
          = g - i + count_hits (hit_at cells w) w i - w := by omega
      have e3 : i + w + m * w = i + (w + m * w) := by omega
      have e4 : g + count_hits (hit_at cells w) w i + count_hits (hit_at cells w) (m * w) (i + w)
          = g + (count_hits (hit_at cells w) w i + count_hits (hit_at cells w) (m * w) (i + w)) := by
        omega
      rw [e2, e3, e4]

theorem free_cells_eq (cells : List GridCell) (w h : Nat)
    (hv : ∀ c ∈ cells, cell_valid c) (hw : w < INT_LIM) (hh : h < INT_LIM) :
    free_cells cells w h = (List.range' 0 (h * w)).filter (fun j => !hit_at cells w j) := by
  unfold free_cells
  rw [List.range_eq_range', Nat.mul_comm]
  apply List.filter_congr
  intro j hj
  have hj2 : j < h * w := by simpa using hj
  have hwpos : 0 < w := by
    rcases Nat.eq_zero_or_pos w with h0 | h0
    · subst h0; simp at hj2
    · exact h0
  have hx : j % w < w := Nat.mod_lt j hwpos
  have hy : j / w < h := by
    apply Nat.div_lt_of_lt_mul
    rw [Nat.mul_comm]; exact hj2
  have hiff := snake_hits_iff cells (j % w) (j / w) hv (by omega) (by omega)
  unfold hit_at
  by_cases ho : occupied cells (j % w) (j / w)
  · simp [ho, hiff.2 ho]
  · have hn : snake_hits cells (j % w) (j / w) = false := by
      cases hs : snake_hits cells (j % w) (j / w)
      · rfl
      · exact absurd (hiff.1 hs) ho
    simp [ho, hn]

theorem free_cells_lt (cells : List GridCell) (w h j : Nat)
    (hj : j ∈ free_cells cells w h) : j < w * h := by
  unfold free_cells at hj
  have := (List.mem_filter.1 hj).1
  simpa using this

theorem rand_food_walk_found (cells : List GridCell) (w h k : Nat)
    (hv : ∀ c ∈ cells, cell_valid c) (hw : w < INT_LIM) (hh : h < INT_LIM)
    (hgrid : w * h < UINT_MOD) (hk : k < (free_cells cells w h).length) :
    rand_food_rows cells w h 0 0 k = ScanState.found (grid_cell w (free_cells cells w h)[k]) := by
  have hfc := free_cells_eq cells w h hv hw hh
  have hcount := count_hits_free (hit_at cells w) (h * w) 0
  have hlen : (free_cells cells w h).length
      = ((List.range' 0 (h * w)).filter (fun j => !hit_at cells w j)).length := by rw [hfc]
  have hmul : h * w = w * h := Nat.mul_comm h w
  rw [rand_food_rows_eq cells w h 0 0 k (by simp) (by omega) (by omega) (by omega)]
  have hget : kth_free (hit_at cells w) (h * w) 0 (k - 0) = some (free_cells cells w h)[k] := by
    rw [kth_free_getElem, Nat.sub_zero]
    simp only [hfc]
    exact List.getElem?_eq_getElem _
  rw [hget]
  simp only
  have hj : (free_cells cells w h)[k] < w * h :=
    free_cells_lt cells w h _ (List.getElem_mem _)
  generalize (free_cells cells w h)[k] = j at hj
  have hwpos : 0 < w := by
    rcases Nat.eq_zero_or_pos w with h0 | h0
    · subst h0; simp at hj
    · exact h0
  have hx : j % w < w := Nat.mod_lt j hwpos
  have hy : j / w < h := Nat.div_lt_of_lt_mul hj
  simp only [INT_LIM] at hw hh
  unfold grid_cell
  generalize j % w = xx at hx ⊢
  generalize j / w = yy at hy ⊢
  rw [i32_of_range _ (by omega) (by omega), i32_of_range _ (by omega) (by omega)]

theorem rand_food_scan_free (cells : List GridCell) (w h k : Nat)
    (hv : ∀ c ∈ cells, cell_valid c) (hw : w < INT_LIM) (hh : h < INT_LIM)
    (hgrid : w * h < UINT_MOD) (hk : k < (free_cells cells w h).length) :
    rand_food_scan cells w h k = grid_cell w (free_cells cells w h)[k] := by
  unfold rand_food_scan
  rw [rand_food_walk_found cells w h k hv hw hh hgrid hk]

/-- C3. For every snake (cells holding `signed int` values), every grid with
extents below 2^31 and fewer than 2^32 cells, and every draw `k` smaller than
the number of unoccupied grid cells, the walk of `rand_food_location` started
with `the_grid_space = k` returns from inside the loop (no fallback) with the
food on the `k`-th (0-based) unoccupied cell in row-major order; for the row
`_+_` the draw 1 gives grid index 2. -/
theorem rand_food_scan_kth (cells : List GridCell) (width height k : Nat)
    (hv : ∀ c ∈ cells, cell_valid c) (hw : width < INT_LIM) (hh : height < INT_LIM)
    (hgrid : width * height < UINT_MOD) (hk : k < (free_cells cells width height).length) :
    rand_food_rows cells width height 0 0 k =
      ScanState.found (grid_cell width (free_cells cells width height)[k]) ∧
    rand_food_scan cells width height k = grid_cell width (free_cells cells width height)[k] ∧
    rand_food_scan cells width height k ≠ ⟨-1, -1⟩ ∧
    rand_food_scan [⟨1, 0⟩] 3 1 1 = grid_cell 3 2 := by
  have h1 := rand_food_walk_found cells width height k hv hw hh hgrid hk
  have h2 := rand_food_scan_free cells width height k hv hw hh hgrid hk
  refine ⟨h1, h2, ?_, by decide⟩
  rw [h2]
  intro hne
  have hx : (grid_cell width (free_cells cells width height)[k]).x = -1 := by rw [hne]
  simp only [grid_cell] at hx
  omega

theorem rand_food_scan_kth_witness :
    rand_food_scan (main_snake 10 10).cells 10 10 64 =
      grid_cell 10 (free_cells (main_snake 10 10).cells 10 10)[64] ∧
    rand_food_scan (main_snake 10 10).cells 10 10 64 = ⟨6, 6⟩ :=
  have h := rand_food_scan_kth (main_snake 10 10).cells 10 10 64 (by decide) (by decide)
    (by decide) (by decide) (by decide)
  ⟨h.2.1, by decide⟩

/-! ## Food placement: the number of free cells and the draw -/

theorem snake_hits_exists (cells : List GridCell) (x y : Nat) :
    snake_hits cells x y = true ↔ ∃ c ∈ cells, u32 c.x = x ∧ u32 c.y = y := by
  induction cells with
  | nil => simp [snake_hits]
  | cons c cs ih =>
    unfold snake_hits
    by_cases h : u32 c.x = x ∧ u32 c.y = y
    · simp only [h, and_self, if_true, true_iff]
      exact ⟨c, List.mem_cons_self c cs, h⟩
    · rw [if_neg h, ih]
      constructor
      · rintro ⟨d, hd, hdx⟩
        exact ⟨d, List.mem_cons_of_mem c hd, hdx⟩
      · rintro ⟨d, hd, hdx⟩
        rcases List.mem_cons.1 hd with hdc | hdc
        · subst hdc
          exact absurd hdx h
        · exact ⟨d, hdc, hdx⟩

theorem count_hits_length (p : Nat → Bool) (n i : Nat) :
    count_hits p n i = ((List.range' i n).filter p).length := by
  induction n generalizing i with
  | zero => simp [count_hits]
  | succ n ih =>
    rw [List.range'_succ, List.filter_cons]
    unfold count_hits
    rw [ih (i + 1)]
    cases hp : p i
    · simp
    · simp only [if_true, List.length_cons]
      omega

theorem mem_take_of_tail_same (cells : List GridCell) (g : Nat) (hg : 1 ≤ g)
    (hs : tail_same cells (g - 1)) (c : GridCell) (hc : c ∈ cells) : c ∈ cells.take g := by
  have e : g = (g - 1) + 1 := by omega
  have ht : cells.take g = cells.take (g - 1) ++ (cells.drop (g - 1)).take 1 := by
    conv_lhs => rw [e]
    exact List.take_add cells (g - 1) 1
  rw [ht]
  rw [← List.take_append_drop (g - 1) cells] at hc
  rcases List.mem_append.1 hc with h1 | h2
  · exact List.mem_append_left _ h1
  · apply List.mem_append_right
    cases hd : cells.drop (g - 1) with
    | nil => rw [hd] at h2; exact absurd h2 (List.not_mem_nil c)
    | cons d ds =>
      have h3 : c = d := hs c h2 d (by rw [hd]; exact List.mem_cons_self d ds)
      rw [h3]
      simp

theorem hits_le_used (s : Snake) (w n : Nat) (hinv : placement_inv s) :
    count_hits (hit_at s.cells w) n 0 ≤ s.grid_used_length := by
  obtain ⟨hg, hsame, _⟩ := hinv
  rw [count_hits_length]
  have hnd : ((List.range' 0 n).filter (hit_at s.cells w)).Nodup :=
    List.Nodup.filter _ (List.nodup_range' 0 n)
  have hsub : (List.range' 0 n).filter (hit_at s.cells w)
      ⊆ (s.cells.take s.grid_used_length).map (fun c => u32 c.y * w + u32 c.x) := by
    intro j hj
    have hp : hit_at s.cells w j = true := (List.mem_filter.1 hj).2
    unfold hit_at at hp
    obtain ⟨c, hc, hx, hy⟩ := (snake_hits_exists s.cells (j % w) (j / w)).1 hp
    have hct := mem_take_of_tail_same s.cells s.grid_used_length hg hsame c hc
    refine List.mem_map.2 ⟨c, hct, ?_⟩
    rw [hx, hy]
    exact Nat.div_add_mod' j w
  have hle := (hnd.subperm hsub).length_le
  rw [List.length_map, List.length_take] at hle
  omega

theorem food_draw_cases (s : Snake) (w h rnd : Nat) :
    food_draw s w h rnd = 0 ∨
    (1 ≤ food_free_count s w h ∧ food_free_count s w h ≤ INT_LIM ∧
      food_draw s w h rnd < food_free_count s w h) := by
  have hF : food_free_count s w h < 4294967296 := u32_lt _
  unfold food_draw gen_random_number
  generalize food_free_count s w h = F at hF ⊢
  by_cases hneg : (0 : Int) > i32 ((F : Int) - 1)
  · left
    rw [if_pos hneg]
    rfl
  · right
    rw [if_neg hneg]
    have h1 : 1 ≤ F ∧ F ≤ 2147483648 := by
      unfold i32 at hneg
      omega
    have e1 : i32 ((F : Int) - 1) = (F : Int) - 1 := i32_of_range _ (by omega) (by omega)
    have e2 : u32 ((F : Int) - 1 - 0 + 1) = F := by
      unfold u32
      omega
    have hr : rnd % UINT_MOD % F < F := Nat.mod_lt _ (by omega)
    simp only [e1, e2]
    generalize rnd % UINT_MOD % F = r at hr
    refine ⟨h1.1, h1.2, ?_⟩
    unfold u32 i32
    omega

theorem food_free_count_eq (s : Snake) (w h : Nat) (hgrid : w * h < UINT_MOD)
    (hle : s.grid_used_length ≤ w * h) :
    food_free_count s w h = w * h - s.grid_used_length := by
  unfold food_free_count u32
  rw [Nat.mod_eq_of_lt hgrid]
  simp only [UINT_MOD] at hgrid
  generalize w * h = n at hgrid hle
  omega

theorem food_free_count_large (s : Snake) (w h : Nat) (hgrid : w * h < UINT_MOD)
    (hgul : s.grid_used_length < INT_LIM) (hlt : w * h < s.grid_used_length) :
    INT_LIM < food_free_count s w h := by
  unfold food_free_count u32
  rw [Nat.mod_eq_of_lt hgrid]
  simp only [UINT_MOD, INT_LIM] at *
  generalize w * h = n at hgrid hlt
  omega

/-! ## Invariants of the reachable states -/

theorem cell_valid_zero : cell_valid ⟨0, 0⟩ := by decide

theorem cell_valid_i32_x (a y : Int) (hy : int_range y) : cell_valid ⟨i32 a, y⟩ :=
  ⟨i32_range a, hy⟩

theorem cell_valid_i32_y (x a : Int) (hx : int_range x) : cell_valid ⟨x, i32 a⟩ :=
  ⟨hx, i32_range a⟩

theorem crawl_move_valid (c : GridCell) (d : Nat) (hc : cell_valid c) :
    cell_valid (crawl_move c d) := by
  unfold crawl_move
  split_ifs
  · exact cell_valid_i32_y _ _ hc.1
  · exact cell_valid_i32_y _ _ hc.1
  · exact cell_valid_i32_x _ _ hc.2
  · exact cell_valid_i32_x _ _ hc.2

theorem crawl_wrap_valid (c : GridCell) (w h : Nat) (hc : cell_valid c) :
    cell_valid (crawl_wrap c w h) := by
  unfold crawl_wrap
  split_ifs
  · exact cell_valid_i32_x _ _ hc.2
  · exact cell_valid_i32_x _ _ hc.2
  · exact cell_valid_i32_y _ _ hc.1
  · exact cell_valid_i32_y _ _ hc.1
  · exact hc

theorem headD_valid (cells : List GridCell) (hv : ∀ c ∈ cells, cell_valid c) :
    cell_valid (cells.headD ⟨0, 0⟩) := by
  cases cells with
  | nil => exact cell_valid_zero
  | cons c cs => exact hv c (List.mem_cons_self c cs)

theorem crawl_head_valid (s : Snake) (w h : Nat) (hv : ∀ c ∈ s.cells, cell_valid c) :
    cell_valid (crawl_head s w h) :=
  crawl_wrap_valid _ w h (crawl_move_valid _ _ (headD_valid s.cells hv))

theorem tail_same_short (l : List GridCell) (n : Nat) (h : l.length ≤ n + 1) :
    tail_same l n := by
  intro a ha b hb
  have hlen : (l.drop n).length ≤ 1 := by rw [List.length_drop]; omega
  cases hd : l.drop n with
  | nil => rw [hd] at ha; exact absurd ha (List.not_mem_nil a)
  | cons d ds =>
    rw [hd] at ha hb hlen
    cases ds with
    | nil =>
      rw [List.mem_singleton] at ha hb
      rw [ha, hb]
    | cons e es => simp at hlen

theorem main_snake_inv (w h : Nat) : tick_inv (main_snake w h) := by
  refine ⟨by simp [main_snake, STARTING_LENGTH], ?_, ?_, ?_⟩
  · apply tail_same_short
    simp [main_snake, STARTING_LENGTH]
  · intro c hc
    simp only [main_snake, List.mem_cons, List.mem_map] at hc
    rcases hc with rfl | ⟨i, _, rfl⟩
    · exact ⟨i32_range _, i32_range _⟩
    · simp only [main_cell, STARTING_DIRECTION, if_true]
      exact ⟨i32_range _, i32_range _⟩
  · simp [main_snake, STARTING_LENGTH, UINT_MOD]

theorem crawl_commit_inv (s : Snake) (hinv : tick_inv s) : placement_inv (crawl_commit s) := by
  obtain ⟨hg, hsame, hv, hlen⟩ := hinv
  unfold crawl_commit
  refine ⟨?_, ?_, hv, hlen⟩
  · simp only
    split_ifs <;> omega
  · simp only
    by_cases hlt : s.grid_used_length < s.cells.length
    · rw [if_pos hlt, Nat.add_sub_cancel]
      exact hsame
    · rw [if_neg hlt]
      apply tail_same_short
      omega

theorem crawl_commit_inv_of_full (s : Snake) (hinv : tick_inv s)
    (hfull : s.grid_used_length = s.cells.length) : placement_inv s := by
  obtain ⟨hg, _, hv, hlen⟩ := hinv
  refine ⟨hg, ?_, hv, hlen⟩
  apply tail_same_short
  omega

theorem getD_last_valid (cells : List GridCell) (n : Nat)
    (hv : ∀ c ∈ cells, cell_valid c) : cell_valid (cells.getD n ⟨0, 0⟩) := by
  rw [List.getD_eq_getElem?_getD]
  cases hn : cells[n]? with
  | none => exact cell_valid_zero
  | some c => exact hv c (List.getElem?_mem hn)

theorem getD_last_mem_drop (cells : List GridCell) (m : Nat) (hlen : cells.length < UINT_MOD)
    (hne : cells.drop m ≠ []) :
    cells.getD (u32 ((cells.length : Int) - 1)) ⟨0, 0⟩ ∈ cells.drop m := by
  have hm : m < cells.length := by
    by_contra hcon
    exact hne (List.drop_eq_nil_iff.2 (by omega))
  have hidx : u32 ((cells.length : Int) - 1) = cells.length - 1 := by
    unfold u32
    simp only [UINT_MOD] at hlen
    omega
  rw [hidx, List.getD_eq_getElem?_getD, List.getElem?_eq_getElem (by omega)]
  simp only [Option.getD_some]
  rw [List.mem_drop_iff_getElem]
  refine ⟨cells.length - 1 - m, by omega, ?_⟩
  congr 1
  omega

theorem crawl_consume_inv (s : Snake) (hinv : placement_inv s) :
    placement_inv (crawl_consume s) := by
  obtain ⟨hg, hsame, hv, hlen⟩ := hinv
  have hmod : (s.cells.length + s.grow_by) % UINT_MOD < UINT_MOD :=
    Nat.mod_lt _ (by decide)
  unfold crawl_consume snake_append_cells
  simp only
  generalize (s.cells.length + s.grow_by) % UINT_MOD = nl at hmod
  by_cases hle : s.cells.length ≤ nl
  · simp only [hle, if_true]
    refine ⟨hg, ?_, ?_, ?_⟩
    · have key : ∀ a ∈ (s.cells ++ List.replicate (nl - s.cells.length)
            (s.cells.getD (u32 ((s.cells.length : Int) - 1)) ⟨0, 0⟩)).drop (s.grid_used_length - 1),
          (s.cells.drop (s.grid_used_length - 1) ≠ [] ∧ a ∈ s.cells.drop (s.grid_used_length - 1)) ∨
          (s.cells.drop (s.grid_used_length - 1) = [] ∧
            a = s.cells.getD (u32 ((s.cells.length : Int) - 1)) ⟨0, 0⟩) := by
        intro a ha
        rw [List.drop_append_eq_append_drop] at ha
        by_cases hne : s.cells.drop (s.grid_used_length - 1) = []
        · right
          refine ⟨hne, ?_⟩
          rw [hne, List.nil_append] at ha
          exact (List.mem_replicate.1 (List.mem_of_mem_drop ha)).2
        · left
          refine ⟨hne, ?_⟩
          rcases List.mem_append.1 ha with h1 | h2
          · exact h1
          · rw [(List.mem_replicate.1 (List.mem_of_mem_drop h2)).2]
            exact getD_last_mem_drop s.cells _ hlen hne
      intro a ha b hb
      rcases key a ha with ⟨hn1, h1⟩ | ⟨hn1, h1⟩ <;> rcases key b hb with ⟨hn2, h2⟩ | ⟨hn2, h2⟩
      · exact hsame a h1 b h2
      · exact absurd hn2 hn1
      · exact absurd hn1 hn2
      · rw [h1, h2]
    · intro c hc
      rcases List.mem_append.1 hc with h1 | h2
      · exact hv c h1
      · rw [(List.mem_replicate.1 h2).2]
        exact getD_last_valid s.cells _ hv
    · rw [List.length_append, List.length_replicate]
      omega
  · simp only [hle, if_false]
    refine ⟨hg, ?_, ?_, ?_⟩
    · intro a ha b hb
      rw [List.drop_take] at ha hb
      exact hsame a (List.mem_of_mem_take ha) b (List.mem_of_mem_take hb)
    · intro c hc
      exact hv c (List.mem_of_mem_take hc)
    · rw [List.length_take]
      omega

theorem mem_drop_snake_shift (l : List GridCell) (p a : GridCell) (n : Nat)
    (ha : a ∈ (snake_shift l p).drop n) : a ∈ (p :: l).drop n := by
  induction l generalizing p n with
  | nil => simp [snake_shift] at ha
  | cons c cs ih =>
    unfold snake_shift at ha
    cases n with
    | zero =>
      rw [List.drop_zero] at ha ⊢
      rcases List.mem_cons.1 ha with h1 | h2
      · rw [h1]; exact List.mem_cons_self p _
      · have := ih c 0 (by rw [List.drop_zero]; exact h2)
        rw [List.drop_zero] at this
        exact List.mem_cons_of_mem p this
    | succ n =>
      rw [List.drop_succ_cons] at ha ⊢
      exact ih c n ha

theorem crawl_cells_inv (s t : Snake) (head prev : GridCell) (hinv : placement_inv s)
    (hprev : s.cells = [] ∨ s.cells.head? = some prev) (hhead : cell_valid head)
    (hg : t.grid_used_length = s.grid_used_length)
    (hc : t.cells = crawl_cells s.cells head prev) : tick_inv t := by
  obtain ⟨hg1, hsame, hv, hlen⟩ := hinv
  rcases hprev with hnil | hsome
  · rw [hnil] at hc
    refine ⟨by omega, ?_, ?_, ?_⟩
    · rw [hc]; intro a ha; simp [crawl_cells] at ha
    · rw [hc]; intro a ha; simp [crawl_cells] at ha
    · rw [hc]; simp [crawl_cells, UINT_MOD]
  · cases hcells : s.cells with
    | nil => rw [hcells] at hsome; simp at hsome
    | cons c0 rest =>
      rw [hcells] at hsome hc
      simp only [List.head?_cons, Option.some.injEq] at hsome
      subst hsome
      simp only [crawl_cells] at hc
      have hdrop : ∀ a ∈ t.cells.drop t.grid_used_length,
          a ∈ s.cells.drop (s.grid_used_length - 1) := by
        intro a ha
        rw [hc, hg] at ha
        have e : s.grid_used_length = (s.grid_used_length - 1) + 1 := by omega
        rw [e, List.drop_succ_cons] at ha
        rw [hcells]
        exact mem_drop_snake_shift rest c0 a _ ha
      refine ⟨by omega, ?_, ?_, ?_⟩
      · intro a ha b hb
        exact hsame a (hdrop a ha) b (hdrop b hb)
      · intro a ha
        rw [hc] at ha
        rcases List.mem_cons.1 ha with h1 | h2
        · rw [h1]; exact hhead
        · have := mem_drop_snake_shift rest c0 a 0 (by rw [List.drop_zero]; exact h2)
          rw [List.drop_zero, ← hcells] at this
          exact hv a this
      · rw [hc, List.length_cons, snake_shift_length]
        rw [hcells, List.length_cons] at hlen
        exact hlen

theorem crawl_consume_head (s : Snake) :
    (crawl_consume s).cells = [] ∨
    (crawl_consume s).cells.head? = some (s.cells.headD ⟨0, 0⟩) := by
  unfold crawl_consume snake_append_cells
  simp only
  generalize (s.cells.length + s.grow_by) % UINT_MOD = nl
  cases hcells : s.cells with
  | nil =>
    simp only [List.length_nil, Nat.zero_le, if_true, List.nil_append, Nat.sub_zero,
      List.headD_nil]
    cases nl with
    | zero => left; rfl
    | succ n => right; simp [List.replicate_succ]
  | cons c cs =>
    by_cases hle : (c :: cs).length ≤ nl
    · right
      rw [if_pos hle]
      rfl
    · simp only [hle, if_false]
      cases nl with
      | zero => left; rfl
      | succ n => right; simp

theorem headD_head (cells : List GridCell) :
    cells = [] ∨ cells.head? = some (cells.headD ⟨0, 0⟩) := by
  cases cells with
  | nil => left; rfl
  | cons c cs => right; rfl

theorem snake_crawl_used (s : Snake) (food : GridCell) (w h rnd : Nat) :
    (snake_crawl s food w h rnd).1.grid_used_length = (crawl_commit s).grid_used_length := by
  unfold snake_crawl
  dsimp only
  split_ifs <;> rfl

theorem snake_crawl_inv (s : Snake) (food : GridCell) (w h rnd : Nat) (hinv : tick_inv s) :
    tick_inv (snake_crawl s food w h rnd).1 := by
  have hhead := crawl_head_valid s w h hinv.2.2.1
  have hcommit := crawl_commit_inv s hinv
  have hcs := snake_crawl_cells s food w h rnd
  have hu := snake_crawl_used s food w h rnd
  by_cases heat : crawl_head s w h = food
  · rw [if_pos heat] at hcs
    exact crawl_cells_inv (crawl_consume (crawl_commit s)) _ _ _
      (crawl_consume_inv _ hcommit) (crawl_consume_head (crawl_commit s)) hhead hu hcs
  · rw [if_neg heat] at hcs
    exact crawl_cells_inv (crawl_commit s) _ _ _ hcommit (headD_head s.cells) hhead hu hcs

theorem main_key_snake (data : Char) (np np2 : Nat) (s s2 : Snake)
    (hk : main_key data np s = some (np2, s2)) :
    s2.cells = s.cells ∧ s2.grid_used_length = s.grid_used_length ∧
    s2.direction = s.direction ∧ s2.grow_by = s.grow_by := by
  unfold main_key at hk
  split_ifs at hk <;>
    simp only [Option.some.injEq, Prod.mk.injEq, reduceCtorEq] at hk <;>
    (obtain ⟨_, rfl⟩ := hk; exact ⟨rfl, rfl, rfl, rfl⟩)

theorem reachable_inv (w h : Nat) (s : Snake) (food : GridCell)
    (hr : Reachable w h s food) : tick_inv s := by
  induction hr with
  | init rnd => exact main_snake_inv w h
  | tick s food rnd _ ih => exact snake_crawl_inv s food w h rnd ih
  | key s food data np np2 s2 _ hk ih =>
    obtain ⟨hc, hg, _, _⟩ := main_key_snake data np np2 s s2 hk
    unfold tick_inv at ih ⊢
    rw [hc, hg]
    exact ih

theorem placement_call_inv (w h : Nat) (s : Snake) (hc : PlacementCall w h s) :
    placement_inv s := by
  cases hc with
  | init => exact (crawl_commit_inv_of_full (main_snake w h) (main_snake_inv w h) rfl)
  | tick s0 food hr _ =>
    exact crawl_consume_inv _ (crawl_commit_inv s0 (reachable_inv w h s0 food hr))

/-! ## Food placement on reachable snakes -/

theorem free_cells_length (cells : List GridCell) (w h : Nat)
    (hv : ∀ c ∈ cells, cell_valid c) (hw : w < INT_LIM) (hh : h < INT_LIM) :
    (free_cells cells w h).length + count_hits (hit_at cells w) (h * w) 0 = w * h := by
  rw [free_cells_eq cells w h hv hw hh, count_hits_free, Nat.mul_comm]

theorem mem_free_cells (cells : List GridCell) (w h j : Nat) :
    j ∈ free_cells cells w h ↔ j < w * h ∧ ¬ occupied cells (j % w) (j / w) := by
  unfold free_cells
  simp [List.mem_filter]

theorem grid_cell_free (cells : List GridCell) (w h j : Nat) (hj : j ∈ free_cells cells w h) :
    in_grid (grid_cell w j) w h ∧ ∀ c ∈ cells, c ≠ grid_cell w j := by
  obtain ⟨hlt, hocc⟩ := (mem_free_cells cells w h j).1 hj
  have hwpos : 0 < w := by
    rcases Nat.eq_zero_or_pos w with h0 | h0
    · subst h0; simp at hlt
    · exact h0
  have hx : j % w < w := Nat.mod_lt j hwpos
  have hy : j / w < h := Nat.div_lt_of_lt_mul hlt
  constructor
  · unfold in_grid grid_cell
    simp only
    generalize j % w = xx at hx
    generalize j / w = yy at hy
    omega
  · intro c hc heq
    apply hocc
    refine ⟨c, hc, ?_, ?_⟩
    · rw [heq]; rfl
    · rw [heq]; rfl

theorem food_draw_lt_free (s : Snake) (w h rnd : Nat) (hinv : placement_inv s)
    (hw : w < INT_LIM) (hh : h < INT_LIM) (hgrid : w * h < UINT_MOD)
    (hused : s.grid_used_length < INT_LIM) (hfree : free_cells s.cells w h ≠ []) :
    food_draw s w h rnd < (free_cells s.cells w h).length := by
  have hpos : 0 < (free_cells s.cells w h).length := List.length_pos.2 hfree
  have hhits := hits_le_used s w (h * w) hinv
  have hsum := free_cells_length s.cells w h hinv.2.2.1 hw hh
  rcases food_draw_cases s w h rnd with h0 | ⟨h1, h2, h3⟩
  · omega
  · by_cases hle : s.grid_used_length ≤ w * h
    · rw [food_free_count_eq s w h hgrid hle] at h3
      omega
    · have := food_free_count_large s w h hgrid hused (by omega)
      omega

theorem placement_free (s : Snake) (w h rnd : Nat) (hinv : placement_inv s)
    (hw : w < INT_LIM) (hh : h < INT_LIM) (hgrid : w * h < UINT_MOD)
    (hused : s.grid_used_length < INT_LIM) (hfree : free_cells s.cells w h ≠ []) :
    in_grid (rand_food_location s w h rnd) w h ∧
    ∀ c ∈ s.cells, c ≠ rand_food_location s w h rnd := by
  have hk := food_draw_lt_free s w h rnd hinv hw hh hgrid hused hfree
  unfold rand_food_location
  rw [rand_food_scan_free s.cells w h _ hinv.2.2.1 hw hh hgrid hk]
  exact grid_cell_free s.cells w h _ (List.getElem_mem _)

/-- C2. On a grid with extents below 2^31 and fewer than 2^32 cells, for every
snake handed to `rand_food_location` in a run from the initial state (the
initial snake, or the snake of a food-consuming tick from a reachable state)
with `grid_used_length` below 2^31 and at least one grid cell free, and for
every value of `rand()`, the cell assigned to the food lies inside the grid and
no segment of the full segment list is on it. -/
theorem rand_food_location_free (width height rnd : Nat) (s : Snake)
    (hw : width < INT_LIM) (hh : height < INT_LIM) (hgrid : width * height < UINT_MOD)
    (hcall : PlacementCall width height s) (hused : s.grid_used_length < INT_LIM)
    (hfree : ∃ x y, x < width ∧ y < height ∧ ¬ occupied s.cells x y) :
    in_grid (rand_food_location s width height rnd) width height ∧
    ∀ c ∈ s.cells, c ≠ rand_food_location s width height rnd := by
  have hinv := placement_call_inv width height s hcall
  apply placement_free s width height rnd hinv hw hh hgrid hused
  obtain ⟨x, y, hx, hy, hocc⟩ := hfree
  have hmem : y * width + x ∈ free_cells s.cells width height := by
    rw [mem_free_cells]
    have hm : (y * width + x) % width = x := by
      rw [Nat.add_comm, Nat.add_mul_mod_self_right, Nat.mod_eq_of_lt hx]
    have hd : (y * width + x) / width = y := by
      rw [Nat.add_comm, Nat.add_mul_div_right _ _ (by omega), Nat.div_eq_of_lt hx,
        Nat.zero_add]
    rw [hm, hd]
    refine ⟨?_, hocc⟩
    calc y * width + x < y * width + width := by omega
      _ = (y + 1) * width := by rw [Nat.add_mul, Nat.one_mul]
      _ ≤ height * width := Nat.mul_le_mul_right width (by omega)
      _ = width * height := Nat.mul_comm _ _
  exact List.ne_nil_of_mem hmem

theorem rand_food_location_free_witness :
    in_grid (rand_food_location (main_snake 10 10) 10 10 64) 10 10 ∧
    (∀ c ∈ (main_snake 10 10).cells, c ≠ rand_food_location (main_snake 10 10) 10 10 64) ∧
    rand_food_location (main_snake 10 10) 10 10 64 = ⟨6, 6⟩ :=
  have h := rand_food_location_free 10 10 64 (main_snake 10 10) (by decide) (by decide)
    (by decide) (PlacementCall.init) (by decide) ⟨0, 0, by decide, by decide, by decide⟩
  ⟨h.1, h.2, by decide⟩

/-! ## The free-cell count of `rand_food_location` -/

theorem occupied_free_length (cells : List GridCell) (w h : Nat) :
    (occupied_cells cells w h).length + (free_cells cells w h).length = w * h := by
  unfold occupied_cells free_cells
  have h1 := @List.length_eq_length_filter_add Nat (List.range (w * h))
    (fun i => decide (occupied cells (i % w) (i / w)))
  rw [List.length_range] at h1
  simp only [decide_not]
  omega

theorem free_cells_nodup (cells : List GridCell) (w h : Nat) :
    (free_cells cells w h).Nodup :=
  List.Nodup.filter _ (List.nodup_range _)

theorem grid_cell_inj (w j1 j2 : Nat) (h : grid_cell w j1 = grid_cell w j2) : j1 = j2 := by
  unfold grid_cell at h
  simp only [GridCell.mk.injEq, Nat.cast_inj] at h
  rw [← Nat.div_add_mod' j1 w, ← Nat.div_add_mod' j2 w, h.1, h.2]

theorem grid_cell_index (w x y : Nat) (hx : x < w) : grid_cell w (y * w + x) = ⟨x, y⟩ := by
  have hm : (y * w + x) % w = x := by
    rw [Nat.add_comm, Nat.add_mul_mod_self_right, Nat.mod_eq_of_lt hx]
  have hd : (y * w + x) / w = y := by
    rw [Nat.add_comm, Nat.add_mul_div_right _ _ (by omega), Nat.div_eq_of_lt hx, Nat.zero_add]
  unfold grid_cell
  rw [hm, hd]

theorem index_mem_free_cells (cells : List GridCell) (w h x y : Nat) (hx : x < w) (hy : y < h)
    (hocc : ¬ occupied cells x y) : y * w + x ∈ free_cells cells w h := by
  rw [mem_free_cells]
  have hg := grid_cell_index w x y hx
  unfold grid_cell at hg
  simp only [GridCell.mk.injEq, Nat.cast_inj] at hg
  rw [hg.1, hg.2]
  refine ⟨?_, hocc⟩
  calc y * w + x < y * w + w := by omega
    _ = (y + 1) * w := by rw [Nat.add_mul, Nat.one_mul]
    _ ≤ h * w := Nat.mul_le_mul_right w (by omega)
    _ = w * h := Nat.mul_comm _ _

theorem grid_cell_cell_index (w h : Nat) (c : GridCell) (hc : in_grid c w h) :
    grid_cell w (cell_index w c) = c := by
  obtain ⟨hx0, hxw, hy0, _⟩ := hc
  have hx : c.x.toNat < w := by omega
  unfold cell_index
  rw [grid_cell_index w c.x.toNat c.y.toNat hx, Int.toNat_of_nonneg hx0,
    Int.toNat_of_nonneg hy0]

theorem cell_index_lt (w h : Nat) (c : GridCell) (hc : in_grid c w h) :
    cell_index w c < w * h := by
  obtain ⟨hx0, hxw, hy0, hyh⟩ := hc
  have hx : c.x.toNat < w := by omega
  have hy : c.y.toNat < h := by omega
  unfold cell_index
  calc c.y.toNat * w + c.x.toNat < c.y.toNat * w + w := by omega
    _ = (c.y.toNat + 1) * w := by rw [Nat.add_mul, Nat.one_mul]
    _ ≤ h * w := Nat.mul_le_mul_right w (by omega)
    _ = w * h := Nat.mul_comm _ _

theorem mem_occupied_cells (cells : List GridCell) (w h j : Nat) :
    j ∈ occupied_cells cells w h ↔ j < w * h ∧ occupied cells (j % w) (j / w) := by
  unfold occupied_cells
  simp [List.mem_filter]

theorem occupied_cells_nodup (cells : List GridCell) (w h : Nat) :
    (occupied_cells cells w h).Nodup :=
  List.Nodup.filter _ (List.nodup_range _)

theorem occupied_cells_used (s : Snake) (w h : Nat) (hinv : placement_inv s)
    (hin : cells_in_grid s w h) (hlen : s.grid_used_length ≤ s.length)
    (hnd : (s.cells.take s.grid_used_length).Nodup) :
    (occupied_cells s.cells w h).length = s.grid_used_length := by
  obtain ⟨hg, hsame, _, _⟩ := hinv
  have hLnd : ((s.cells.take s.grid_used_length).map (cell_index w)).Nodup := by
    apply List.Nodup.map_on _ hnd
    intro a ha b hb hab
    rw [← grid_cell_cell_index w h a (hin a (List.mem_of_mem_take ha)),
      ← grid_cell_cell_index w h b (hin b (List.mem_of_mem_take hb)), hab]
  have hmem : ∀ j, j ∈ occupied_cells s.cells w h ↔
      j ∈ (s.cells.take s.grid_used_length).map (cell_index w) := by
    intro j
    rw [mem_occupied_cells, List.mem_map]
    constructor
    · rintro ⟨_, c, hc, hx, hy⟩
      refine ⟨c, mem_take_of_tail_same s.cells s.grid_used_length hg hsame c hc, ?_⟩
      unfold cell_index
      rw [hx, hy, Int.toNat_natCast, Int.toNat_natCast]
      exact Nat.div_add_mod' j w
    · rintro ⟨c, hc, rfl⟩
      have hcm : c ∈ s.cells := List.mem_of_mem_take hc
      have hgc := grid_cell_cell_index w h c (hin c hcm)
      refine ⟨cell_index_lt w h c (hin c hcm), c, hcm, ?_, ?_⟩
      · exact (congrArg GridCell.x hgc).symm
      · exact (congrArg GridCell.y hgc).symm
  have hperm := (List.perm_ext_iff_of_nodup (occupied_cells_nodup s.cells w h) hLnd).2 hmem
  have hl := hperm.length_eq
  rw [List.length_map, List.length_take] at hl
  unfold Snake.length at hlen
  omega

/-- C4, as stated, fails: on a 10x10 grid the snake `loop_snake` is handed to
`rand_food_location` in a run from the initial state (keys `a`, `s`, `d` with
a tick after each, then a tick onto the food at (6,6)); it lies inside the
grid, its head segment and segment 4 share the cell (5,6), and
`width*height - grid_used_length` is 95 while 96 grid cells are unoccupied.
On a 10x4 grid the initial placement gets the snake of `main`, whose segments
are on different cells, three of them outside the grid: there
`width*height - grid_used_length` is 35 while 38 grid cells are unoccupied. -/
theorem free_count_overlap :
    PlacementCall 10 10 loop_snake ∧
    food_free_count loop_snake 10 10 = 95 ∧
    (free_cells loop_snake.cells 10 10).length = 96 ∧
    ¬ (∀ s, PlacementCall 10 10 s →
        food_free_count s 10 10 = (free_cells s.cells 10 10).length) ∧
    (cells_in_grid loop_snake 10 10 ∧
      ¬ (loop_snake.cells.take loop_snake.grid_used_length).Nodup) ∧
    PlacementCall 10 4 (main_snake 10 4) ∧
    food_free_count (main_snake 10 4) 10 4 = 35 ∧
    (free_cells (main_snake 10 4).cells 10 4).length = 38 ∧
    (((main_snake 10 4).cells.take (main_snake 10 4).grid_used_length).Nodup ∧
      ¬ cells_in_grid (main_snake 10 4) 10 4) := by
  have r0 : Reachable 10 10 (main_snake 10 10) ⟨6, 6⟩ := by
    have h := @Reachable.init 10 10 64
    have e : rand_food_location (main_snake 10 10) 10 10 64 = ⟨6, 6⟩ := by decide
    rw [e] at h
    exact h
  have r1 : Reachable 10 10 ⟨DIR_LEFT, DIR_UP, 5, 2, [⟨5, 5⟩, ⟨5, 6⟩, ⟨5, 7⟩, ⟨5, 8⟩, ⟨5, 9⟩]⟩
      ⟨6, 6⟩ :=
    Reachable.key _ _ 'a' 1 1 _ r0 (by decide)
  have r2 : Reachable 10 10 ⟨DIR_LEFT, DIR_LEFT, 5, 2, [⟨4, 5⟩, ⟨5, 5⟩, ⟨5, 6⟩, ⟨5, 7⟩, ⟨5, 8⟩]⟩
      ⟨6, 6⟩ := by
    have h := Reachable.tick _ _ 0 r1
    have e : snake_crawl ⟨DIR_LEFT, DIR_UP, 5, 2, [⟨5, 5⟩, ⟨5, 6⟩, ⟨5, 7⟩, ⟨5, 8⟩, ⟨5, 9⟩]⟩
        ⟨6, 6⟩ 10 10 0
        = (⟨DIR_LEFT, DIR_LEFT, 5, 2, [⟨4, 5⟩, ⟨5, 5⟩, ⟨5, 6⟩, ⟨5, 7⟩, ⟨5, 8⟩]⟩, ⟨6, 6⟩) := by
      decide
    rw [e] at h
    exact h
  have r3 : Reachable 10 10 ⟨DIR_DOWN, DIR_LEFT, 5, 2, [⟨4, 5⟩, ⟨5, 5⟩, ⟨5, 6⟩, ⟨5, 7⟩, ⟨5, 8⟩]⟩
      ⟨6, 6⟩ :=
    Reachable.key _ _ 's' 1 1 _ r2 (by decide)
  have r4 : Reachable 10 10 ⟨DIR_DOWN, DIR_DOWN, 5, 2, [⟨4, 6⟩, ⟨4, 5⟩, ⟨5, 5⟩, ⟨5, 6⟩, ⟨5, 7⟩]⟩
      ⟨6, 6⟩ := by
    have h := Reachable.tick _ _ 0 r3
    have e : snake_crawl ⟨DIR_DOWN, DIR_LEFT, 5, 2, [⟨4, 5⟩, ⟨5, 5⟩, ⟨5, 6⟩, ⟨5, 7⟩, ⟨5, 8⟩]⟩
        ⟨6, 6⟩ 10 10 0
        = (⟨DIR_DOWN, DIR_DOWN, 5, 2, [⟨4, 6⟩, ⟨4, 5⟩, ⟨5, 5⟩, ⟨5, 6⟩, ⟨5, 7⟩]⟩, ⟨6, 6⟩) := by
      decide
    rw [e] at h
    exact h
  have r5 : Reachable 10 10 ⟨DIR_RIGHT, DIR_DOWN, 5, 2, [⟨4, 6⟩, ⟨4, 5⟩, ⟨5, 5⟩, ⟨5, 6⟩, ⟨5, 7⟩]⟩
      ⟨6, 6⟩ :=
    Reachable.key _ _ 'd' 1 1 _ r4 (by decide)
  have r6 : Reachable 10 10 ⟨DIR_RIGHT, DIR_RIGHT, 5, 2, [⟨5, 6⟩, ⟨4, 6⟩, ⟨4, 5⟩, ⟨5, 5⟩, ⟨5, 6⟩]⟩
      ⟨6, 6⟩ := by
    have h := Reachable.tick _ _ 0 r5
    have e : snake_crawl ⟨DIR_RIGHT, DIR_DOWN, 5, 2, [⟨4, 6⟩, ⟨4, 5⟩, ⟨5, 5⟩, ⟨5, 6⟩, ⟨5, 7⟩]⟩
        ⟨6, 6⟩ 10 10 0
        = (⟨DIR_RIGHT, DIR_RIGHT, 5, 2, [⟨5, 6⟩, ⟨4, 6⟩, ⟨4, 5⟩, ⟨5, 5⟩, ⟨5, 6⟩]⟩, ⟨6, 6⟩) := by
      decide
    rw [e] at h
    exact h
  have hcall : PlacementCall 10 10 loop_snake := by
    have h := PlacementCall.tick _ _ r6 (by decide)
    have e : crawl_consume (crawl_commit
        ⟨DIR_RIGHT, DIR_RIGHT, 5, 2, [⟨5, 6⟩, ⟨4, 6⟩, ⟨4, 5⟩, ⟨5, 5⟩, ⟨5, 6⟩]⟩) = loop_snake := by
      decide
    rw [e] at h
    exact h
  have h95 : food_free_count loop_snake 10 10 = 95 := by decide
  have h96 : (free_cells loop_snake.cells 10 10).length = 96 := by decide
  refine ⟨hcall, h95, h96, ?_, ⟨by decide, by decide⟩, PlacementCall.init, by decide,
    by decide, ⟨by decide, by decide⟩⟩
  intro hall
  have := hall loop_snake hcall
  rw [h95, h96] at this
  exact absurd this (by decide)

/-- C4, amended. On a grid with extents below 2^31 and fewer than 2^32
cells, for every snake handed to `rand_food_location` in a run from the
initial state (the initial snake, or the snake of a food-consuming tick from a
reachable state) that lies inside the grid and has its first
`grid_used_length` segments (`grid_used_length` at most the segment count) on
pairwise different cells: `width*height - grid_used_length`, as computed by
`rand_food_location`, is the number of unoccupied grid cells, and the walk
maps the draws `k` below it one-to-one onto the unoccupied cells of the
grid. -/
theorem free_count_bijection (s : Snake) (width height : Nat)
    (hw : width < INT_LIM) (hh : height < INT_LIM) (hgrid : width * height < UINT_MOD)
    (hcall : PlacementCall width height s)
    (hin : cells_in_grid s width height)
    (hlen : s.grid_used_length ≤ s.length)
    (hnd : (s.cells.take s.grid_used_length).Nodup) :
    food_free_count s width height = (free_cells s.cells width height).length ∧
    (∀ k, k < food_free_count s width height →
      in_grid (rand_food_scan s.cells width height k) width height ∧
      ∀ c ∈ s.cells, c ≠ rand_food_scan s.cells width height k) ∧
    (∀ k1 k2, k1 < food_free_count s width height → k2 < food_free_count s width height →
      rand_food_scan s.cells width height k1 = rand_food_scan s.cells width height k2 →
      k1 = k2) ∧
    (∀ x y, x < width → y < height → ¬ occupied s.cells x y →
      ∃ k, k < food_free_count s width height ∧
        rand_food_scan s.cells width height k = ⟨x, y⟩) := by
  have hinv := placement_call_inv width height s hcall
  have hv : ∀ c ∈ s.cells, cell_valid c := hinv.2.2.1
  have hocc := occupied_cells_used s width height hinv hin hlen hnd
  have hsum := occupied_free_length s.cells width height
  have hF : food_free_count s width height = (free_cells s.cells width height).length := by
    rw [food_free_count_eq s width height hgrid (by omega)]
    omega
  rw [hF]
  refine ⟨rfl, ?_, ?_, ?_⟩
  · intro k hk
    rw [rand_food_scan_free s.cells width height k hv hw hh hgrid hk]
    exact grid_cell_free s.cells width height _ (List.getElem_mem _)
  · intro k1 k2 hk1 hk2 heq
    rw [rand_food_scan_free s.cells width height k1 hv hw hh hgrid hk1,
      rand_food_scan_free s.cells width height k2 hv hw hh hgrid hk2] at heq
    exact (List.Nodup.getElem_inj_iff (free_cells_nodup s.cells width height)).1
      (grid_cell_inj width _ _ heq)
  · intro x y hx hy hfree
    have hmem := index_mem_free_cells s.cells width height x y hx hy hfree
    obtain ⟨k, hk, hget⟩ := List.getElem_of_mem hmem
    refine ⟨k, hk, ?_⟩
    rw [rand_food_scan_free s.cells width height k hv hw hh hgrid hk, hget]
    exact grid_cell_index width x y hx

theorem free_count_bijection_witness :
    PlacementCall 10 10 (crawl_consume (crawl_commit (main_snake 10 10))) ∧
    food_free_count (crawl_consume (crawl_commit (main_snake 10 10))) 10 10
      = (free_cells (crawl_consume (crawl_commit (main_snake 10 10))).cells 10 10).length ∧
    food_free_count (crawl_consume (crawl_commit (main_snake 10 10))) 10 10 = 95 ∧
    (crawl_consume (crawl_commit (main_snake 10 10))).cells.length = 7 := by
  have r0 : Reachable 10 10 (main_snake 10 10) ⟨5, 4⟩ := by
    have h := @Reachable.init 10 10 45
    have e : rand_food_location (main_snake 10 10) 10 10 45 = ⟨5, 4⟩ := by decide
    rw [e] at h
    exact h
  have hcall : PlacementCall 10 10 (crawl_consume (crawl_commit (main_snake 10 10))) :=
    PlacementCall.tick (main_snake 10 10) ⟨5, 4⟩ r0 (by decide)
  exact ⟨hcall,
    (free_count_bijection (crawl_consume (crawl_commit (main_snake 10 10))) 10 10 (by decide)
      (by decide) (by decide) hcall (by decide) (by decide) (by decide)).1,
    by decide, by decide⟩

/-! ## The food after a food-consuming tick -/

/-- C1, evaluated at the failing input. On a 10x10 grid, from the initial
state with the food at (5,4) (initial `rand()` value 45), the first tick
consumes the food and, when `rand()` returns 45 again, `rand_food_location`
(called before the head is stored into segment 0) puts the new food on (5,4),
the cell of the new head: the post-tick state is reachable and its food cell
is occupied by segment 0. -/
theorem food_under_new_head :
    rand_food_location (main_snake 10 10) 10 10 45 = ⟨5, 4⟩ ∧
    Reachable 10 10 (snake_crawl (main_snake 10 10) ⟨5, 4⟩ 10 10 45).1
      (snake_crawl (main_snake 10 10) ⟨5, 4⟩ 10 10 45).2 ∧
    (snake_crawl (main_snake 10 10) ⟨5, 4⟩ 10 10 45).2 = ⟨5, 4⟩ ∧
    (snake_crawl (main_snake 10 10) ⟨5, 4⟩ 10 10 45).1.cells.head? = some ⟨5, 4⟩ ∧
    occupied (snake_crawl (main_snake 10 10) ⟨5, 4⟩ 10 10 45).1.cells 5 4 := by
  have e : rand_food_location (main_snake 10 10) 10 10 45 = ⟨5, 4⟩ := by decide
  have r0 : Reachable 10 10 (main_snake 10 10) ⟨5, 4⟩ := by
    have h := @Reachable.init 10 10 45
    rw [e] at h
    exact h
  exact ⟨e, Reachable.tick _ _ 45 r0, by decide, by decide, by decide⟩

/-! ## Timing: the sleep computed by `game_loop` -/

theorem game_loop_sleep_short (loop_start_time loop_end_time : timeval)
    (hs : 0 ≤ loop_start_time.tv_usec ∧ loop_start_time.tv_usec < 1000000)
    (he : 0 ≤ loop_end_time.tv_usec ∧ loop_end_time.tv_usec < 1000000)
    (hord : 0 ≤ elapsed_ns loop_start_time loop_end_time) :
    game_loop_sleep 150 loop_start_time loop_end_time =
      if elapsed_ns loop_start_time loop_end_time < 150000000 then
        ⟨0, 150000000 - elapsed_ns loop_start_time loop_end_time⟩
      else ⟨0, 0⟩ := by
  obtain ⟨ss, su⟩ := loop_start_time
  obtain ⟨es, eu⟩ := loop_end_time
  simp only [elapsed_ns] at hs he hord ⊢
  have ht : target_sleep_time 150 = ⟨0, 150000000⟩ := by decide
  simp only [game_loop_sleep, ht, loop_elapsed, actual_sleep_time]
  by_cases hb : eu < su
  · simp only [hb, if_true]
    split_ifs <;> simp only [timespec.mk.injEq, and_true, true_and] <;> omega
  · simp only [hb, if_false]
    split_ifs <;> simp only [timespec.mk.injEq, and_true, true_and] <;> omega

/-- C11. With the tick interval of 150 ms, for all tick-start and tick-end
timestamps with microsecond fields in [0, 10^6) and end not before start, the
sleep duration computed by `game_loop` is max(0, 150 ms - elapsed): 0 s and
150000000 ns minus the elapsed time when that is below 150 ms, zero otherwise;
seconds are not negative and nanoseconds lie in [0, 10^9). -/
theorem game_loop_sleep_150 (loop_start_time loop_end_time : timeval)
    (hs : 0 ≤ loop_start_time.tv_usec ∧ loop_start_time.tv_usec < 1000000)
    (he : 0 ≤ loop_end_time.tv_usec ∧ loop_end_time.tv_usec < 1000000)
    (hord : loop_start_time.tv_sec < loop_end_time.tv_sec ∨
      (loop_start_time.tv_sec = loop_end_time.tv_sec ∧
        loop_start_time.tv_usec ≤ loop_end_time.tv_usec)) :
    DELAY_TIME_MS = 150 ∧
    (game_loop_sleep DELAY_TIME_MS loop_start_time loop_end_time).tv_sec * 1000000000 +
      (game_loop_sleep DELAY_TIME_MS loop_start_time loop_end_time).tv_nsec =
      max 0 (150000000 - elapsed_ns loop_start_time loop_end_time) ∧
    (elapsed_ns loop_start_time loop_end_time < 150000000 →
      game_loop_sleep DELAY_TIME_MS loop_start_time loop_end_time =
        ⟨0, 150000000 - elapsed_ns loop_start_time loop_end_time⟩) ∧
    (150000000 ≤ elapsed_ns loop_start_time loop_end_time →
      game_loop_sleep DELAY_TIME_MS loop_start_time loop_end_time = ⟨0, 0⟩) ∧
    0 ≤ (game_loop_sleep DELAY_TIME_MS loop_start_time loop_end_time).tv_sec ∧
    0 ≤ (game_loop_sleep DELAY_TIME_MS loop_start_time loop_end_time).tv_nsec ∧
    (game_loop_sleep DELAY_TIME_MS loop_start_time loop_end_time).tv_nsec < 1000000000 := by
  have h0 : 0 ≤ elapsed_ns loop_start_time loop_end_time := by
    unfold elapsed_ns
    omega
  have hr := game_loop_sleep_short loop_start_time loop_end_time hs he h0
  have hd : DELAY_TIME_MS = 150 := rfl
  rw [hd]
  refine ⟨rfl, ?_⟩
  by_cases hlt : elapsed_ns loop_start_time loop_end_time < 150000000
  · rw [if_pos hlt] at hr
    rw [hr]
    refine ⟨?_, fun _ => rfl, fun hge => absurd hlt (by omega), ?_, ?_, ?_⟩
    · rw [max_eq_right (by omega)]
      simp
    · simp
    · simp only; omega
    · simp only; omega
  · rw [if_neg hlt] at hr
    rw [hr]
    refine ⟨?_, fun h => absurd h hlt, fun _ => rfl, ?_, ?_, ?_⟩
    · rw [max_eq_left (by omega)]
      simp
    · simp
    · simp
    · simp

theorem game_loop_sleep_150_witness :
    game_loop_sleep DELAY_TIME_MS ⟨1700000000, 999000⟩ ⟨1700000001, 40000⟩ = ⟨0, 109000000⟩ ∧
    game_loop_sleep DELAY_TIME_MS ⟨1700000000, 999000⟩ ⟨1700000001, 200000⟩ = ⟨0, 0⟩ :=
  ⟨(game_loop_sleep_150 ⟨1700000000, 999000⟩ ⟨1700000001, 40000⟩ (by decide) (by decide)
      (by decide)).2.2.1 (by decide),
   (game_loop_sleep_150 ⟨1700000000, 999000⟩ ⟨1700000001, 200000⟩ (by decide) (by decide)
      (by decide)).2.2.2.1 (by decide)⟩

/-! ## Length invariants -/

theorem snake_crawl_length_inv (s : Snake) (food : GridCell) (w h rnd : Nat)
    (hinv : length_inv s)
    (hfit : crawl_head s w h = food → s.length + s.grow_by < UINT_MOD) :
    length_inv (snake_crawl s food w h rnd).1 := by
  obtain ⟨h2, hg⟩ := hinv
  have hcs := snake_crawl_cells s food w h rnd
  have hu := snake_crawl_used s food w h rnd
  have hgu : (crawl_commit s).grid_used_length ≤ s.cells.length := by
    unfold crawl_commit
    simp only [Snake.length] at hg
    simp only
    split_ifs <;> omega
  unfold length_inv Snake.length at *
  rw [hu, hcs]
  by_cases heat : crawl_head s w h = food
  · rw [if_pos heat, crawl_cells_length]
    have hl : (crawl_consume (crawl_commit s)).cells.length = s.cells.length + s.grow_by :=
      snake_append_cells_length (crawl_commit s) s.grow_by (hfit heat)
    rw [hl]
    omega
  · rw [if_neg heat, crawl_cells_length]
    omega

/-- C12. The predicate "at least 2 segments and `grid_used_length` at most
the number of segments" holds for the snake built by `main`, is preserved by
every tick (`snake_crawl`, with or without food, as long as the grown length
of a food-consuming tick fits `unsigned int`), and by every key handled by
`main`. -/
theorem length_inv_preserved :
    (∀ w h, length_inv (main_snake w h)) ∧
    (∀ s food w h rnd, length_inv s →
      (crawl_head s w h = food → s.length + s.grow_by < UINT_MOD) →
      length_inv (snake_crawl s food w h rnd).1) ∧
    (∀ data np np2 s s2, length_inv s → main_key data np s = some (np2, s2) →
      length_inv s2) := by
  refine ⟨?_, ?_, ?_⟩
  · intro w h
    simp [length_inv, Snake.length, main_snake, STARTING_LENGTH]
  · intro s food w h rnd hinv hfit
    exact snake_crawl_length_inv s food w h rnd hinv hfit
  · intro data np np2 s s2 hinv hk
    obtain ⟨hc, hg, _, _⟩ := main_key_snake data np np2 s s2 hk
    unfold length_inv Snake.length at *
    rw [hc, hg]
    exact hinv

theorem length_inv_preserved_witness :
    length_inv (main_snake 10 10) ∧
    length_inv (snake_crawl (main_snake 10 10) ⟨5, 4⟩ 10 10 7).1 ∧
    length_inv { main_snake 10 10 with new_direction := DIR_LEFT } :=
  ⟨length_inv_preserved.1 10 10,
   length_inv_preserved.2.1 (main_snake 10 10) ⟨5, 4⟩ 10 10 7 (by decide) (fun _ => by decide),
   length_inv_preserved.2.2 'a' 1 1 (main_snake 10 10) _ (by decide) (by decide)⟩

/-! ## Keys while paused, and repeated direction keys -/

theorem key_direction_keys (data : Char) (d : Nat) (hk : key_direction data = some d) :
    ¬(data = 'q' ∨ data = 'Q') ∧ ¬(data = 'e' ∨ data = 'E') := by
  have hq1 : key_direction 'q' = none := by decide
  have hq2 : key_direction 'Q' = none := by decide
  have he1 : key_direction 'e' = none := by decide
  have he2 : key_direction 'E' = none := by decide
  constructor
  · rintro (rfl | rfl)
    · rw [hq1] at hk; exact absurd hk (by simp)
    · rw [hq2] at hk; exact absurd hk (by simp)
  · rintro (rfl | rfl)
    · rw [he1] at hk; exact absurd hk (by simp)
    · rw [he2] at hk; exact absurd hk (by simp)

/-- C15. While the game is paused (`not_paused = 0`), every character other
than `q`, `Q`, `e`, `E` (direction keys included) leaves the snake, with its
pending and committed direction, and the pause flag as they are (the handler
has no access to the food); `e`/`E` only flips the pause flag, `q`/`Q` leaves
the event loop. -/
theorem main_key_paused (data : Char) (s : Snake) :
    (¬(data = 'q' ∨ data = 'Q') → ¬(data = 'e' ∨ data = 'E') →
      main_key data 0 s = some (0, s)) ∧
    (data = 'e' ∨ data = 'E' → main_key data 0 s = some (1, s)) ∧
    (data = 'q' ∨ data = 'Q' → main_key data 0 s = none) := by
  refine ⟨?_, ?_, ?_⟩
  · intro hq he
    unfold main_key
    rw [if_neg hq, if_neg he]
    simp
  · intro he
    have hq : ¬(data = 'q' ∨ data = 'Q') := by
      rcases he with rfl | rfl <;> decide
    unfold main_key
    rw [if_neg hq, if_pos he]
    rfl
  · intro hq
    unfold main_key
    rw [if_pos hq]

theorem main_key_paused_witness :
    main_key 'w' 0 (main_snake 10 10) = some (0, main_snake 10 10) ∧
    main_key 'E' 0 (main_snake 10 10) = some (1, main_snake 10 10) ∧
    main_key 'q' 0 (main_snake 10 10) = none :=
  ⟨(main_key_paused 'w' (main_snake 10 10)).1 (by decide) (by decide),
   (main_key_paused 'E' (main_snake 10 10)).2.1 (by decide),
   (main_key_paused 'q' (main_snake 10 10)).2.2 (by decide)⟩

/-- C16. For every snake (every committed and pending direction), every value
of the pause flag and every direction key, handling the key a second time
right after the first leaves exactly the state reached by handling it once. -/
theorem main_key_twice (data : Char) (d not_paused np1 : Nat) (s s1 : Snake)
    (hk : key_direction data = some d)
    (h1 : main_key data not_paused s = some (np1, s1)) :
    main_key data np1 s1 = some (np1, s1) := by
  obtain ⟨hq, he⟩ := key_direction_keys data d hk
  unfold main_key at h1 ⊢
  rw [if_neg hq, if_neg he] at h1 ⊢
  by_cases hp : not_paused ≠ 0
  · rw [if_pos hp] at h1
    split_ifs at h1 <;>
      simp only [Option.some.injEq, Prod.mk.injEq] at h1 <;>
      (obtain ⟨rfl, rfl⟩ := h1; simp [*])
  · rw [if_neg hp] at h1
    simp only [Option.some.injEq, Prod.mk.injEq] at h1
    obtain ⟨rfl, rfl⟩ := h1
    rw [if_neg hp]

theorem main_key_twice_witness :
    main_key 'a' 1 { main_snake 10 10 with new_direction := DIR_LEFT } =
      some (1, { main_snake 10 10 with new_direction := DIR_LEFT }) :=
  main_key_twice 'a' DIR_LEFT 1 1 (main_snake 10 10) _ (by decide) (by decide)

/-! ## The body shift of a tick -/

theorem snake_shift_getElem (l : List GridCell) (p : GridCell) (i : Nat) (hi : i < l.length) :
    (snake_shift l p)[i]? = (p :: l)[i]? := by
  induction l generalizing p i with
  | nil => simp at hi
  | cons c cs ih =>
    unfold snake_shift
    cases i with
    | zero => simp
    | succ j =>
      rw [List.getElem?_cons_succ, List.getElem?_cons_succ]
      exact ih c j (by simpa using hi)

theorem crawl_cells_getElem (cells rest : List GridCell) (head prev : GridCell)
    (hcells : cells = prev :: rest) (i : Nat) (h1 : 1 ≤ i) (hi : i < cells.length) :
    (crawl_cells cells head prev)[i]? = cells[i - 1]? := by
  subst hcells
  obtain ⟨j, rfl⟩ : ∃ j, i = j + 1 := ⟨i - 1, by omega⟩
  simp only [crawl_cells, List.getElem?_cons_succ, Nat.add_sub_cancel]
  exact snake_shift_getElem rest prev j (by simpa using hi)

theorem crawl_cells_head (cells rest : List GridCell) (head prev : GridCell)
    (hcells : cells = prev :: rest) : (crawl_cells cells head prev)[0]? = some head := by
  subst hcells
  simp [crawl_cells]

theorem crawl_consume_cells (s : Snake) (hfit : s.cells.length + s.grow_by < UINT_MOD) :
    (crawl_consume s).cells =
      s.cells ++ List.replicate s.grow_by
        (s.cells.getD (u32 ((s.cells.length : Int) - 1)) ⟨0, 0⟩) := by
  unfold crawl_consume snake_append_cells
  simp only [Nat.mod_eq_of_lt hfit, Nat.le_add_right, if_true, Nat.add_sub_cancel_left]

theorem getD_last (cells : List GridCell) (h1 : 1 ≤ cells.length)
    (hlen : cells.length < UINT_MOD) :
    some (cells.getD (u32 ((cells.length : Int) - 1)) ⟨0, 0⟩) = cells[cells.length - 1]? := by
  have hidx : u32 ((cells.length : Int) - 1) = cells.length - 1 := by
    unfold u32
    simp only [UINT_MOD] at hlen
    omega
  rw [hidx, List.getD_eq_getElem?_getD, List.getElem?_eq_getElem (by omega)]
  rfl

theorem snake_crawl_segments (s : Snake) (food : GridCell) (w h rnd : Nat)
    (hlen : 2 ≤ s.length)
    (hfit : crawl_head s w h = food → s.length + s.grow_by < UINT_MOD) :
    (snake_crawl s food w h rnd).1.cells[0]? = some (crawl_head s w h) ∧
    (∀ i, 1 ≤ i → i < s.length →
      (snake_crawl s food w h rnd).1.cells[i]? = s.cells[i - 1]?) ∧
    (crawl_head s w h = food → ∀ i, s.length ≤ i → i < s.length + s.grow_by →
      (snake_crawl s food w h rnd).1.cells[i]? = s.cells[s.length - 1]?) := by
  unfold Snake.length at *
  have hcs := snake_crawl_cells s food w h rnd
  obtain ⟨c0, rest, hcells⟩ : ∃ c0 rest, s.cells = c0 :: rest := by
    cases hc : s.cells with
    | nil => rw [hc] at hlen; simp at hlen
    | cons c0 rest => exact ⟨c0, rest, rfl⟩
  have hprev : s.cells.headD ⟨0, 0⟩ = c0 := by rw [hcells]; rfl
  rw [hprev] at hcs
  by_cases heat : crawl_head s w h = food
  · have hfit2 := hfit heat
    have hlast := getD_last s.cells (by omega) (by omega)
    generalize s.cells.getD (u32 ((s.cells.length : Int) - 1)) ⟨0, 0⟩ = t at hlast
    have hX0 : (crawl_consume (crawl_commit s)).cells = s.cells ++ List.replicate s.grow_by t := by
      have h0 := crawl_consume_cells (crawl_commit s) hfit2
      have hl : some ((crawl_commit s).cells.getD
          (u32 (((crawl_commit s).cells.length : Int) - 1)) ⟨0, 0⟩) = some t := by
        rw [hlast]
        exact getD_last s.cells (by omega) (by omega)
      rw [Option.some.injEq] at hl
      rw [hl] at h0
      exact h0
    have hX : (crawl_consume (crawl_commit s)).cells
        = c0 :: (rest ++ List.replicate s.grow_by t) := by
      rw [hX0, hcells]
      rfl
    have hXlen : (crawl_consume (crawl_commit s)).cells.length
        = s.cells.length + s.grow_by := by
      rw [hX0, List.length_append, List.length_replicate]
    rw [if_pos heat] at hcs
    rw [hcs]
    refine ⟨crawl_cells_head _ _ _ _ hX, ?_, ?_⟩
    · intro i h1 hi
      rw [crawl_cells_getElem _ _ _ _ hX i h1 (by rw [hXlen]; omega), hX0]
      exact List.getElem?_append_left (by omega)
    · intro _ i hn hi
      rw [crawl_cells_getElem _ _ _ _ hX i (by omega) (by rw [hXlen]; omega), hX0]
      by_cases hin : i - 1 < s.cells.length
      · have hi1 : i - 1 = s.cells.length - 1 := by omega
        rw [List.getElem?_append_left hin, hi1]
      · rw [List.getElem?_append_right (by omega), List.getElem?_replicate,
          if_pos (by omega), hlast]
  · rw [if_neg heat] at hcs
    rw [hcs]
    refine ⟨crawl_cells_head _ _ _ _ hcells, ?_, fun hc => absurd hc heat⟩
    intro i h1 hi
    exact crawl_cells_getElem _ rest _ _ hcells i h1 hi

/-- C19. For every snake with n >= 2 segments, after one `snake_crawl`
segment 0 is the new head cell and every segment i with 1 <= i < n holds the
pre-tick position of segment i-1; on a food-consuming tick (grown length
within `unsigned int`) each appended segment, indices n .. n+grow_by-1, holds
the pre-tick position of the tail, segment n-1. -/
theorem crawl_shift (s : Snake) (food : GridCell) (width height rnd : Nat)
    (hlen : 2 ≤ s.length)
    (hfit : crawl_head s width height = food → s.length + s.grow_by < UINT_MOD) :
    (snake_crawl s food width height rnd).1.cells[0]? = some (crawl_head s width height) ∧
    (∀ i, 1 ≤ i → i < s.length →
      (snake_crawl s food width height rnd).1.cells[i]? = s.cells[i - 1]?) ∧
    (crawl_head s width height = food → ∀ i, s.length ≤ i → i < s.length + s.grow_by →
      (snake_crawl s food width height rnd).1.cells[i]? = s.cells[s.length - 1]?) :=
  snake_crawl_segments s food width height rnd hlen hfit

theorem crawl_shift_witness :
    (snake_crawl (main_snake 10 10) ⟨5, 4⟩ 10 10 7).1.cells[0]? = some ⟨5, 4⟩ ∧
    (snake_crawl (main_snake 10 10) ⟨5, 4⟩ 10 10 7).1.cells[4]? = some ⟨5, 8⟩ ∧
    (snake_crawl (main_snake 10 10) ⟨5, 4⟩ 10 10 7).1.cells[6]? = some ⟨5, 9⟩ :=
  have h := crawl_shift (main_snake 10 10) ⟨5, 4⟩ 10 10 7 (by decide) (fun _ => by decide)
  ⟨h.1, h.2.1 4 (by decide) (by decide), h.2.2 (by decide) 6 (by decide) (by decide)⟩

/-! ## Head, neck and directions of the reachable states -/

theorem snake_shift_dropLast (l : List GridCell) (p : GridCell) :
    snake_shift l p = (p :: l).dropLast := by
  induction l generalizing p with
  | nil => rfl
  | cons c cs ih =>
    unfold snake_shift
    rw [ih c, List.dropLast_cons₂]

theorem crawl_cells_dropLast (cells : List GridCell) (head prev : GridCell)
    (hprev : cells = [] ∨ cells.head? = some prev) :
    crawl_cells cells head prev = [] ∧ cells = [] ∨
    crawl_cells cells head prev = head :: cells.dropLast ∧ cells.head? = some prev := by
  rcases hprev with hnil | hsome
  · left
    subst hnil
    exact ⟨rfl, rfl⟩
  · right
    cases cells with
    | nil => simp at hsome
    | cons c0 rest =>
      simp only [List.head?_cons, Option.some.injEq] at hsome
      subst hsome
      refine ⟨?_, rfl⟩
      simp only [crawl_cells]
      rw [snake_shift_dropLast]

theorem snake_crawl_step (s : Snake) (food : GridCell) (w h rnd : Nat) :
    ∃ X : List GridCell,
      (X = s.cells ∨ X = (crawl_consume (crawl_commit s)).cells) ∧
      ((snake_crawl s food w h rnd).1.cells = [] ∧ X = [] ∨
       (snake_crawl s food w h rnd).1.cells = crawl_head s w h :: X.dropLast ∧
         X.head? = some (s.cells.headD ⟨0, 0⟩)) := by
  have hcs := snake_crawl_cells s food w h rnd
  by_cases heat : crawl_head s w h = food
  · rw [if_pos heat] at hcs
    refine ⟨(crawl_consume (crawl_commit s)).cells, Or.inr rfl, ?_⟩
    rw [hcs]
    exact crawl_cells_dropLast _ _ _ (crawl_consume_head (crawl_commit s))
  · rw [if_neg heat] at hcs
    refine ⟨s.cells, Or.inl rfl, ?_⟩
    rw [hcs]
    exact crawl_cells_dropLast _ _ _ (headD_head s.cells)

theorem snake_crawl_new_direction (s : Snake) (food : GridCell) (w h rnd : Nat) :
    (snake_crawl s food w h rnd).1.new_direction = s.new_direction := by
  unfold snake_crawl
  dsimp only
  split_ifs <;> rfl

theorem reverse_direction_ne (d : Nat) (hd : d ≤ 3) : d ≠ reverse_direction d := by
  have hc : d = 0 ∨ d = 1 ∨ d = 2 ∨ d = 3 := by omega
  rcases hc with rfl | rfl | rfl | rfl <;> decide

theorem main_key_new_direction (data : Char) (np np2 : Nat) (s s2 : Snake)
    (hd : s.direction ≤ 3) (hk : main_key data np s = some (np2, s2)) :
    s2.new_direction = s.new_direction ∨
    (s2.new_direction ≤ 3 ∧ s2.new_direction ≠ reverse_direction s.direction) := by
  unfold main_key at hk
  simp only [DIR_UP, DIR_DOWN, DIR_LEFT, DIR_RIGHT] at hk
  split_ifs at hk <;>
    simp only [Option.some.injEq, Prod.mk.injEq, reduceCtorEq] at hk <;>
    obtain ⟨_, rfl⟩ := hk
  all_goals first
    | (left; rfl)
    | (right
       simp only [reverse_direction, DIR_UP, DIR_DOWN, DIR_LEFT, DIR_RIGHT]
       split_ifs <;> omega)

theorem reachable_directions (w h : Nat) (s : Snake) (food : GridCell)
    (hr : Reachable w h s food) : direction_inv s := by
  induction hr with
  | init rnd =>
    refine ⟨?_, ?_, ?_⟩
    · show (0 : Nat) ≤ 3
      omega
    · show (0 : Nat) ≤ 3
      omega
    · show (0 : Nat) ≠ reverse_direction 0
      decide
  | tick s food rnd _ ih =>
    obtain ⟨_, hn, _⟩ := ih
    unfold direction_inv
    rw [snake_crawl_direction, snake_crawl_new_direction]
    exact ⟨hn, hn, reverse_direction_ne _ hn⟩
  | key s food data np np2 s2 _ hk ih =>
    obtain ⟨hd, hn, hne⟩ := ih
    obtain ⟨_, _, hdir, _⟩ := main_key_snake data np np2 s s2 hk
    unfold direction_inv
    rw [hdir]
    rcases main_key_new_direction data np np2 s s2 hd hk with hsame | ⟨h3, hrev⟩
    · rw [hsame]; exact ⟨hd, hn, hne⟩
    · exact ⟨hd, h3, hrev⟩

theorem main_snake_cells_eq (w h : Nat) (hw : w < INT_LIM) (hh : h < INT_LIM) :
    (main_snake w h).cells =
      [⟨(w / 2 : Nat), (h / 2 : Nat)⟩, ⟨(w / 2 : Nat), (h / 2 : Nat) + 1⟩,
       ⟨(w / 2 : Nat), (h / 2 : Nat) + 2⟩, ⟨(w / 2 : Nat), (h / 2 : Nat) + 3⟩,
       ⟨(w / 2 : Nat), (h / 2 : Nat) + 4⟩] := by
  simp only [INT_LIM] at hw hh
  have hx : w / 2 < 1073741824 := by omega
  have hy : h / 2 < 1073741824 := by omega
  have hr : List.range' 1 (STARTING_LENGTH - 1) = [1, 2, 3, 4] := by decide
  simp only [main_snake, hr, List.map_cons, List.map_nil, main_cell, STARTING_DIRECTION,
    if_true]
  generalize w / 2 = x at hx
  generalize h / 2 = y at hy
  have ex : i32 (x : Int) = x := i32_of_range _ (by omega) (by omega)
  have ey : i32 (y : Int) = y := i32_of_range _ (by omega) (by omega)
  have e1 : i32 ((y : Int) + (1 : Nat)) = y + 1 := by
    rw [i32_of_range _ (by omega) (by omega)]; rfl
  have e2 : i32 ((y : Int) + (2 : Nat)) = y + 2 := by
    rw [i32_of_range _ (by omega) (by omega)]; rfl
  have e3 : i32 ((y : Int) + (3 : Nat)) = y + 3 := by
    rw [i32_of_range _ (by omega) (by omega)]; rfl
  have e4 : i32 ((y : Int) + (4 : Nat)) = y + 4 := by
    rw [i32_of_range _ (by omega) (by omega)]; rfl
  simp only [ex, ey, e1, e2, e3, e4]

theorem headD_in_grid (cells : List GridCell) (w h : Nat) (hw1 : 1 ≤ w) (hh1 : 1 ≤ h)
    (hhead : ∀ c ∈ cells.head?, in_grid c w h) : in_grid (cells.headD ⟨0, 0⟩) w h := by
  cases cells with
  | nil =>
    simp only [List.headD_nil, in_grid]
    omega
  | cons c cs => exact hhead c (by simp)

theorem crawl_head_advance (s : Snake) (w h : Nat) (hw1 : 1 ≤ w) (hh1 : 1 ≤ h)
    (hw : w < INT_LIM) (hh : h < INT_LIM) (hd : s.new_direction ≤ 3)
    (hhead : ∀ c ∈ s.cells.head?, in_grid c w h) :
    crawl_head s w h = advance_spec (s.cells.headD ⟨0, 0⟩) s.new_direction w h ∧
    in_grid (crawl_head s w h) w h ∧ in_grid (s.cells.headD ⟨0, 0⟩) w h := by
  have hin := headD_in_grid s.cells w h hw1 hh1 hhead
  have he : crawl_head s w h = advance_spec (s.cells.headD ⟨0, 0⟩) s.new_direction w h :=
    crawl_wrap_move_eq _ _ w h hd hw hh hin
  refine ⟨he, ?_, hin⟩
  rw [he]
  exact advance_spec_in_grid _ _ w h hin

theorem head_of_dropLast (X : List GridCell) (c1 prev : GridCell) (rest : List GridCell)
    (hX : X.head? = some prev) (hd : X.dropLast = c1 :: rest) : c1 = prev := by
  have h1 := List.head?_dropLast X
  rw [hd, List.head?_cons, hX] at h1
  split_ifs at h1
  · exact (Option.some.inj h1)

theorem snake_crawl_neck (s : Snake) (food : GridCell) (w h rnd : Nat)
    (hw1 : 1 ≤ w) (hh1 : 1 ≤ h) (hw : w < INT_LIM) (hh : h < INT_LIM)
    (hd : s.new_direction ≤ 3) (hinv : neck_inv s w h) :
    neck_inv (snake_crawl s food w h rnd).1 w h := by
  obtain ⟨he, hin, hprev⟩ := crawl_head_advance s w h hw1 hh1 hw hh hd hinv.1
  obtain ⟨X, _, hcase⟩ := snake_crawl_step s food w h rnd
  unfold neck_inv
  rw [snake_crawl_direction]
  rcases hcase with ⟨hnil, _⟩ | ⟨hcons, hX⟩
  · rw [hnil]
    refine ⟨by simp, ?_⟩
    intro c0 c1 rest hc
    exact absurd hc (by simp)
  · rw [hcons]
    refine ⟨?_, ?_⟩
    · intro c hc
      simp only [List.head?_cons, Option.mem_def, Option.some.injEq] at hc
      rw [← hc]
      exact hin
    · intro c0 c1 rest hc
      simp only [List.cons.injEq] at hc
      obtain ⟨h0, hdl⟩ := hc
      have h1 := head_of_dropLast X c1 _ rest hX hdl
      rw [h1, ← h0]
      exact ⟨hprev, he⟩

theorem main_snake_neck (w h : Nat) (hw1 : 1 ≤ w) (hh3 : 3 ≤ h)
    (hw : w < INT_LIM) (hh : h < INT_LIM) : neck_inv (main_snake w h) w h := by
  unfold neck_inv
  rw [main_snake_cells_eq w h hw hh]
  have hx : w / 2 < w := by omega
  have hy : h / 2 + 1 < h := by omega
  generalize w / 2 = x at hx
  generalize h / 2 = y at hy
  refine ⟨?_, ?_⟩
  · intro c hc
    simp only [List.head?_cons, Option.mem_def, Option.some.injEq] at hc
    rw [← hc]
    simp only [in_grid]
    omega
  · intro c0 c1 rest hc
    simp only [List.cons.injEq] at hc
    obtain ⟨h0, h1, _⟩ := hc
    rw [← h0, ← h1]
    refine ⟨?_, ?_⟩
    · simp only [in_grid]
      omega
    · show _ = advance_spec _ 0 w h
      simp only [advance_spec, wrap_axis_spec, DIR_UP, DIR_DOWN, DIR_LEFT, DIR_RIGHT,
        GridCell.mk.injEq, OfNat.zero_ne_ofNat, zero_ne_one, if_false, if_true, add_zero]
      constructor <;> split_ifs <;> omega

theorem reachable_neck (w h : Nat) (s : Snake) (food : GridCell)
    (hw1 : 1 ≤ w) (hh3 : 3 ≤ h) (hw : w < INT_LIM) (hh : h < INT_LIM)
    (hr : Reachable w h s food) : neck_inv s w h := by
  induction hr with
  | init rnd => exact main_snake_neck w h hw1 hh3 hw hh
  | tick s food rnd hprev ih =>
    exact snake_crawl_neck s food w h rnd hw1 (by omega) hw hh
      (reachable_directions w h s food hprev).2.1 ih
  | key s food data np np2 s2 _ hk ih =>
    obtain ⟨hc, _, hdir, _⟩ := main_key_snake data np np2 s s2 hk
    unfold neck_inv at ih ⊢
    rw [hc, hdir]
    exact ih

theorem wrap_twice (x a b : Int) (w : Nat) (hw3 : 3 ≤ w) (hx : 0 ≤ x ∧ x < w)
    (ha : -1 ≤ a ∧ a ≤ 1) (hb : -1 ≤ b ∧ b ≤ 1)
    (h : wrap_axis_spec (wrap_axis_spec (x + a) w + b) w = x) : a + b = 0 := by
  unfold wrap_axis_spec at h
  split_ifs at h <;> omega

theorem advance_twice_ne (c1 : GridCell) (d nd w h : Nat) (hd : d ≤ 3) (hnd : nd ≤ 3)
    (hne : nd ≠ reverse_direction d) (hw3 : 3 ≤ w) (hh3 : 3 ≤ h) (hin : in_grid c1 w h) :
    advance_spec (advance_spec c1 d w h) nd w h ≠ c1 := by
  obtain ⟨hx0, hx1, hy0, hy1⟩ := hin
  obtain ⟨x, y⟩ := c1
  simp only at hx0 hx1 hy0 hy1
  intro heq
  simp only [advance_spec, GridCell.mk.injEq] at heq
  obtain ⟨h1, h2⟩ := heq
  have hx := wrap_twice x _ _ w hw3 ⟨hx0, hx1⟩ (by split_ifs <;> omega)
    (by split_ifs <;> omega) h1
  have hy := wrap_twice y _ _ h hh3 ⟨hy0, hy1⟩ (by split_ifs <;> omega)
    (by split_ifs <;> omega) h2
  clear h1 h2
  have hcd : d = 0 ∨ d = 1 ∨ d = 2 ∨ d = 3 := by omega
  have hcn : nd = 0 ∨ nd = 1 ∨ nd = 2 ∨ nd = 3 := by omega
  rcases hcd with rfl | rfl | rfl | rfl <;> rcases hcn with rfl | rfl | rfl | rfl <;>
    first
      | exact hne (by decide)
      | (revert hx hy; decide)

theorem reachable_forward (w h : Nat) (s : Snake) (food : GridCell)
    (hw3 : 3 ≤ w) (hh3 : 3 ≤ h) (hw : w < INT_LIM) (hh : h < INT_LIM)
    (hr : Reachable w h s food) :
    s.new_direction ≠ reverse_direction s.direction ∧
    ∀ c0 c1 rest, s.cells = c0 :: c1 :: rest →
      crawl_head s w h ≠ c1 ∧
      ∀ rnd, (snake_crawl s food w h rnd).1.cells.head? ≠ some c1 := by
  obtain ⟨hd, hnd, hne⟩ := reachable_directions w h s food hr
  obtain ⟨hhead, hneck⟩ := reachable_neck w h s food (by omega) hh3 hw hh hr
  refine ⟨hne, ?_⟩
  intro c0 c1 rest hc
  obtain ⟨hin1, h01⟩ := hneck c0 c1 rest hc
  obtain ⟨he, _, _⟩ := crawl_head_advance s w h (by omega) (by omega) hw hh hnd hhead
  have hprev : s.cells.headD ⟨0, 0⟩ = c0 := by rw [hc]; rfl
  have hne1 : crawl_head s w h ≠ c1 := by
    rw [he, hprev, h01]
    exact advance_twice_ne c1 _ _ w h hd hnd hne hw3 hh3 hin1
  refine ⟨hne1, ?_⟩
  intro rnd
  obtain ⟨X, _, hcase⟩ := snake_crawl_step s food w h rnd
  rcases hcase with ⟨hnil, _⟩ | ⟨hcons, _⟩
  · rw [hnil]; simp
  · rw [hcons]
    simp only [List.head?_cons, ne_eq, Option.some.injEq]
    exact hne1

/-- C20. On every grid with width and height at least 3 (and below 2^31), in
every state reachable from the initial state by ticks and key presses, the
pending direction is not the reverse of the committed direction, and the head
cell a tick produces from that state is not the cell segment 1 (the neck)
holds before the tick. -/
theorem no_reversal (width height : Nat) (s : Snake) (food : GridCell)
    (hw3 : 3 ≤ width) (hh3 : 3 ≤ height) (hw : width < INT_LIM) (hh : height < INT_LIM)
    (hr : Reachable width height s food) :
    s.new_direction ≠ reverse_direction s.direction ∧
    ∀ c0 c1 rest, s.cells = c0 :: c1 :: rest →
      crawl_head s width height ≠ c1 ∧
      ∀ rnd, (snake_crawl s food width height rnd).1.cells.head? ≠ some c1 :=
  reachable_forward width height s food hw3 hh3 hw hh hr

theorem no_reversal_witness :
    (main_snake 3 3).new_direction ≠ reverse_direction (main_snake 3 3).direction ∧
    crawl_head (main_snake 3 3) 3 3 ≠ ⟨1, 2⟩ :=
  have h := no_reversal 3 3 (main_snake 3 3) _ (by decide) (by decide) (by decide) (by decide)
    (Reachable.init 0)
  ⟨h.1, (h.2 ⟨1, 1⟩ ⟨1, 2⟩ [⟨1, 3⟩, ⟨1, 4⟩, ⟨1, 5⟩] (by decide)).1⟩

/-! ## The segments of the reachable states: inside the grid, connected -/

theorem unit_apart_refl (w h : Nat) (a : GridCell) : unit_apart w h a a := Or.inl rfl

theorem chain_replicate (w h m : Nat) (t : GridCell) :
    List.Chain' (unit_apart w h) (List.replicate m t) := by
  induction m with
  | zero => exact List.chain'_nil
  | succ m ih =>
    rw [List.replicate_succ]
    apply List.Chain'.cons' ih
    intro y hy
    rw [List.head?_replicate] at hy
    split_ifs at hy
    · simp at hy
    · simp only [Option.mem_def, Option.some.injEq] at hy
      rw [← hy]
      exact unit_apart_refl w h t

theorem crawl_consume_chain (s : Snake) (w h : Nat) (hlen : s.cells.length < UINT_MOD)
    (hc : List.Chain' (unit_apart w h) s.cells) :
    List.Chain' (unit_apart w h) (crawl_consume s).cells := by
  unfold crawl_consume snake_append_cells
  simp only
  generalize (s.cells.length + s.grow_by) % UINT_MOD = nl
  by_cases hle : s.cells.length ≤ nl
  · simp only [hle, if_true]
    apply List.Chain'.append hc (chain_replicate w h _ _)
    intro x hx y hy
    rw [List.head?_replicate] at hy
    split_ifs at hy
    · simp at hy
    · simp only [Option.mem_def, Option.some.injEq] at hy
      have h1 : 1 ≤ s.cells.length := by
        cases hcs : s.cells with
        | nil => rw [hcs] at hx; simp at hx
        | cons c cs => simp
      have hlast := getD_last s.cells h1 hlen
      rw [← List.getLast?_eq_getElem?] at hlast
      rw [Option.mem_def, ← hlast, Option.some.injEq] at hx
      rw [← hx, ← hy]
      exact unit_apart_refl w h _
  · simp only [hle, if_false]
    exact hc.take _

theorem crawl_consume_mem (s : Snake) (c : GridCell) (hc : c ∈ (crawl_consume s).cells) :
    c ∈ s.cells ∨ c = ⟨0, 0⟩ := by
  unfold crawl_consume snake_append_cells at hc
  simp only at hc
  split_ifs at hc
  · rcases List.mem_append.1 hc with h1 | h2
    · exact Or.inl h1
    · have h3 := (List.mem_replicate.1 h2).2
      rw [List.getD_eq_getElem?_getD] at h3
      cases hn : s.cells[u32 ((s.cells.length : Int) - 1)]? with
      | none => rw [hn] at h3; exact Or.inr h3
      | some e =>
        rw [hn] at h3
        simp only [Option.getD_some] at h3
        rw [h3]
        exact Or.inl (List.getElem?_mem hn)
  · exact Or.inl (List.mem_of_mem_take hc)

theorem snake_crawl_path (s : Snake) (food : GridCell) (w h rnd : Nat)
    (hw1 : 1 ≤ w) (hh1 : 1 ≤ h) (hw : w < INT_LIM) (hh : h < INT_LIM)
    (hd : s.new_direction ≤ 3) (hlen : s.cells.length < UINT_MOD)
    (hgrid : cells_in_grid s w h)
    (hc : List.Chain' (unit_apart w h) s.cells) :
    cells_in_grid (snake_crawl s food w h rnd).1 w h ∧
    List.Chain' (unit_apart w h) (snake_crawl s food w h rnd).1.cells := by
  have hhead : ∀ c ∈ s.cells.head?, in_grid c w h :=
    fun c hc => hgrid c (List.mem_of_mem_head? hc)
  obtain ⟨he, hin, hprev⟩ := crawl_head_advance s w h hw1 hh1 hw hh hd hhead
  obtain ⟨X, hX, hcase⟩ := snake_crawl_step s food w h rnd
  have hz : in_grid (⟨0, 0⟩ : GridCell) w h := by
    simp only [in_grid]; omega
  have hXgrid : ∀ c ∈ X, in_grid c w h := by
    intro c hcX
    rcases hX with rfl | rfl
    · exact hgrid c hcX
    · rcases crawl_consume_mem (crawl_commit s) c hcX with h1 | h2
      · exact hgrid c h1
      · rw [h2]; exact hz
  have hXchain : List.Chain' (unit_apart w h) X := by
    rcases hX with rfl | rfl
    · exact hc
    · exact crawl_consume_chain (crawl_commit s) w h hlen hc
  have hpre : X.dropLast <+: X := List.dropLast_prefix X
  have hch : List.Chain' (unit_apart w h) X.dropLast := List.Chain'.prefix hXchain hpre
  unfold cells_in_grid
  rcases hcase with ⟨hnil, _⟩ | ⟨hcons, hXh⟩
  · rw [hnil]
    exact ⟨by simp, List.chain'_nil⟩
  · rw [hcons]
    refine ⟨?_, ?_⟩
    · intro c hcm
      rcases List.mem_cons.1 hcm with h1 | h2
      · rw [h1]; exact hin
      · exact hXgrid c (hpre.subset h2)
    · apply List.Chain'.cons' hch
      intro y hy
      rw [List.head?_dropLast, hXh] at hy
      split_ifs at hy
      · simp only [Option.mem_def, Option.some.injEq] at hy
        rw [← hy]
        right
        refine ⟨s.new_direction, ?_, he⟩
        have hcn : s.new_direction = 0 ∨ s.new_direction = 1 ∨ s.new_direction = 2 ∨
            s.new_direction = 3 := by omega
        rcases hcn with h0 | h0 | h0 | h0 <;> rw [h0] <;> decide
      · simp at hy

theorem step_up (x y : Int) (w h : Nat) (hx : 0 ≤ x ∧ x < w) (hy : 0 ≤ y ∧ y + 1 < h) :
    unit_apart w h ⟨x, y⟩ ⟨x, y + 1⟩ := by
  right
  refine ⟨DIR_UP, by decide, ?_⟩
  simp only [advance_spec, wrap_axis_spec, DIR_UP, DIR_DOWN, DIR_LEFT, DIR_RIGHT,
    GridCell.mk.injEq, OfNat.zero_ne_ofNat, zero_ne_one, if_false, if_true, add_zero]
  constructor <;> split_ifs <;> omega

theorem main_snake_path (w h : Nat) (hw : w < INT_LIM) (hh : h < INT_LIM)
    (hgrid : cells_in_grid (main_snake w h) w h) :
    1 ≤ w ∧ 9 ≤ h ∧ List.Chain' (unit_apart w h) (main_snake w h).cells := by
  unfold cells_in_grid at hgrid
  rw [main_snake_cells_eq w h hw hh] at hgrid ⊢
  have h0 := hgrid ⟨(w / 2 : Nat), (h / 2 : Nat)⟩ (by simp)
  have h4 := hgrid ⟨(w / 2 : Nat), (h / 2 : Nat) + 4⟩ (by simp)
  simp only [in_grid] at h0 h4
  have hw1 : 1 ≤ w := by omega
  have hh9 : 9 ≤ h := by omega
  refine ⟨hw1, hh9, ?_⟩
  have hx : w / 2 < w := by omega
  have hy : h / 2 + 4 < h := by omega
  generalize w / 2 = x at hx
  generalize h / 2 = y at hy
  have e2 : (y : Int) + 2 = (y : Int) + 1 + 1 := by omega
  have e3 : (y : Int) + 3 = (y : Int) + 2 + 1 := by omega
  have e4 : (y : Int) + 4 = (y : Int) + 3 + 1 := by omega
  simp only [List.chain'_cons, List.chain'_singleton, and_true]
  refine ⟨step_up _ _ w h (by omega) (by omega), ?_, ?_, ?_⟩
  · rw [e2]; exact step_up _ _ w h (by omega) (by omega)
  · rw [e3]; exact step_up _ _ w h (by omega) (by omega)
  · rw [e4]; exact step_up _ _ w h (by omega) (by omega)

theorem main_snake_in_grid (w h : Nat) (hw1 : 1 ≤ w) (hh9 : 9 ≤ h)
    (hw : w < INT_LIM) (hh : h < INT_LIM) : cells_in_grid (main_snake w h) w h := by
  unfold cells_in_grid
  rw [main_snake_cells_eq w h hw hh]
  have hx : w / 2 < w := by omega
  have hy : h / 2 + 4 < h := by omega
  generalize w / 2 = x at hx
  generalize h / 2 = y at hy
  intro c hc
  simp only [List.mem_cons, List.mem_singleton, List.not_mem_nil, or_false] at hc
  rcases hc with rfl | rfl | rfl | rfl | rfl <;> simp only [in_grid] <;> omega

theorem reachable_path (w h : Nat) (s : Snake) (food : GridCell)
    (hw : w < INT_LIM) (hh : h < INT_LIM)
    (hgrid : cells_in_grid (main_snake w h) w h) (hr : Reachable w h s food) :
    cells_in_grid s w h ∧ List.Chain' (unit_apart w h) s.cells := by
  obtain ⟨hw1, hh9, hchain⟩ := main_snake_path w h hw hh hgrid
  induction hr with
  | init rnd => exact ⟨hgrid, hchain⟩
  | tick s food rnd hprev ih =>
    exact snake_crawl_path s food w h rnd hw1 (by omega) hw hh
      (reachable_directions w h s food hprev).2.1
      (reachable_inv w h s food hprev).2.2.2 ih.1 ih.2
  | key s food data np np2 s2 _ hk ih =>
    obtain ⟨hc, _, _, _⟩ := main_key_snake data np np2 s s2 hk
    unfold cells_in_grid at ih ⊢
    rw [hc]
    exact ih

/-- C14. On every grid (extents below 2^31) in which the snake built by `main`
lies entirely inside the grid, every state reachable by ticks and key presses
is a connected path under the wrap topology: the head is the advance of
segment 1 in the committed direction, and consecutive segments are on the same
cell or one wrap-around unit step apart. -/
theorem reachable_connected (width height : Nat) (s : Snake) (food : GridCell)
    (hw : width < INT_LIM) (hh : height < INT_LIM)
    (hgrid : cells_in_grid (main_snake width height) width height)
    (hr : Reachable width height s food) : connected_path s width height := by
  obtain ⟨hw1, hh9, _⟩ := main_snake_path width height hw hh hgrid
  have hneck := reachable_neck width height s food hw1 (by omega) hw hh hr
  have hpath := reachable_path width height s food hw hh hgrid hr
  exact ⟨fun c0 c1 rest hc => (hneck.2 c0 c1 rest hc).2, hpath.2⟩

theorem reachable_connected_witness :
    cells_in_grid (main_snake 10 10) 10 10 ∧
    connected_path
      (snake_crawl (main_snake 10 10) (rand_food_location (main_snake 10 10) 10 10 64)
        10 10 0).1 10 10 :=
  ⟨by decide,
   reachable_connected 10 10 _ _ (by decide) (by decide) (by decide)
     (Reachable.tick _ _ 0 (Reachable.init 64))⟩

/-- C13, evaluated at the failing input. On a 10x4 grid the snake built by
`main` is (5,2),(5,3),(5,4),(5,5),(5,6): `main` does not wrap the body as
`snake_crawl` wraps the head, so three segments lie outside the grid, and two
still do after the first tick. On grids with at least 9 rows (width at least
1, extents below 2^31) every segment of every reachable state lies inside the
grid. -/
theorem main_snake_off_grid :
    (main_snake 10 4).cells = [⟨5, 2⟩, ⟨5, 3⟩, ⟨5, 4⟩, ⟨5, 5⟩, ⟨5, 6⟩] ∧
    ¬ in_grid ⟨5, 4⟩ 10 4 ∧
    ¬ cells_in_grid (main_snake 10 4) 10 4 ∧
    (snake_crawl (main_snake 10 4) (rand_food_location (main_snake 10 4) 10 4 0)
      10 4 0).1.cells = [⟨5, 1⟩, ⟨5, 2⟩, ⟨5, 3⟩, ⟨5, 4⟩, ⟨5, 5⟩] ∧
    (∀ w h s food, 1 ≤ w → 9 ≤ h → w < INT_LIM → h < INT_LIM →
      Reachable w h s food → cells_in_grid s w h) := by
  refine ⟨by decide, by decide, by decide, by decide, ?_⟩
  intro w h s food hw1 hh9 hw hh hr
  exact (reachable_path w h s food hw hh (main_snake_in_grid w h hw1 hh9 hw hh) hr).1

theorem main_snake_off_grid_witness :
    cells_in_grid (snake_crawl (main_snake 10 9)
      (rand_food_location (main_snake 10 9) 10 9 0) 10 9 0).1 10 9 :=
  main_snake_off_grid.2.2.2.2 10 9 _ _ (by decide) (by decide) (by decide) (by decide)
    (Reachable.tick _ _ 0 (Reachable.init 0))

/-! ## `game_loop`: guard, cancellation and signal mask along the loop -/

theorem run_calls_append (t : ThreadState) (a b : List LoopCall) :
    run_calls t (a ++ b) = run_calls t a ++ run_calls (end_state t a) b := by
  induction a generalizing t with
  | nil => rfl
  | cons c cs ih =>
    rw [List.cons_append, run_calls, run_calls, end_state, ih]
    rfl

theorem end_state_append (t : ThreadState) (a b : List LoopCall) :
    end_state t (a ++ b) = end_state (end_state t a) b := by
  induction a generalizing t with
  | nil => rfl
  | cons c cs ih =>
    rw [List.cons_append, end_state, end_state, ih]

theorem game_loop_body_end : end_state game_loop_entry game_loop_body = game_loop_entry := by
  decide

theorem game_loop_calls_succ (n : Nat) :
    game_loop_calls (n + 1) = game_loop_body ++ game_loop_calls n := by
  unfold game_loop_calls
  rw [List.replicate_succ, List.flatten_cons]

theorem game_loop_end (n : Nat) :
    end_state game_loop_entry (game_loop_calls n) = game_loop_entry := by
  induction n with
  | zero => rfl
  | succ n ih => rw [game_loop_calls_succ, end_state_append, game_loop_body_end, ih]

theorem game_loop_trace_mem (n : Nat) (p : LoopCall × ThreadState)
    (hp : p ∈ game_loop_trace n) : p ∈ run_calls game_loop_entry game_loop_body := by
  induction n with
  | zero => simp [game_loop_trace, game_loop_calls, run_calls] at hp
  | succ n ih =>
    unfold game_loop_trace at hp ih
    rw [game_loop_calls_succ, run_calls_append, game_loop_body_end] at hp
    rcases List.mem_append.1 hp with h1 | h2
    · exact h1
    · exact ih h2

/-- C17, as stated, fails: in the first iteration of the loop the frame is
written (`dprintf`, line 367) in a thread state in which the guard is held;
`sem_post` comes only after it (line 368). -/
theorem frame_written_under_guard :
    (LoopCall.write_frame, (⟨true, false, true⟩ : ThreadState)) ∈ game_loop_trace 1 ∧
    ¬ (∀ n, ∀ p ∈ game_loop_trace n, p.1 = LoopCall.write_frame → p.2.guard_held = false) := by
  have hmem : (LoopCall.write_frame, (⟨true, false, true⟩ : ThreadState)) ∈ game_loop_trace 1 := by
    decide
  refine ⟨hmem, ?_⟩
  intro hall
  exact absurd (hall 1 _ hmem rfl) (by decide)

/-- C17, amended. In every iteration of the loop the frame is written to the
terminal while the guard is held, the call right after the write releases the
guard, and the sleep (like every call from the release on) is made without
the guard. -/
theorem frame_write_order (n : Nat) :
    (∀ p ∈ game_loop_trace n,
      (p.1 = LoopCall.write_frame → p.2.guard_held = true) ∧
      (p.1 = LoopCall.sleep → p.2.guard_held = false) ∧
      (p.2.guard_held = true →
        p.1 ∈ [LoopCall.crawl, LoopCall.regen, LoopCall.write_frame, LoopCall.sem_post])) ∧
    game_loop_body.drop 4 = LoopCall.write_frame :: LoopCall.sem_post :: game_loop_body.drop 6 := by
  refine ⟨?_, by decide⟩
  intro p hp
  have hb := game_loop_trace_mem n p hp
  clear hp
  revert p hb
  decide

theorem frame_write_order_witness :
    ((LoopCall.write_frame, (⟨true, false, true⟩ : ThreadState)).2.guard_held = true) ∧
    (LoopCall.write_frame, (⟨true, false, true⟩ : ThreadState)) ∈ game_loop_trace 2 :=
  ⟨((frame_write_order 2).1 (LoopCall.write_frame, ⟨true, false, true⟩) (by decide)).1 rfl,
   by decide⟩

/-- C18. At every program point of every iteration of the loop: while the
guard is held, cancellation is disabled and the pause signal is blocked;
cancellation is enabled or the pause signal unblocked only at the calls from
`pthread_sigmask(SIG_UNBLOCK)` to `pthread_setcancelstate(DISABLE)`, which
lie after `sem_post` and before the next `sem_wai2` and are made without the
guard; the sleep is made with cancellation enabled and the pause signal
unblocked; each iteration ends in the state in which it began. -/
theorem guard_excludes_cancel (n : Nat) :
    (∀ p ∈ game_loop_trace n,
      (p.2.guard_held = true → p.2.cancel_enabled = false ∧ p.2.pause_blocked = true) ∧
      (p.2.cancel_enabled = true ∨ p.2.pause_blocked = false →
        p.2.guard_held = false ∧
        p.1 ∈ [LoopCall.pause_unblock, LoopCall.compute_sleep, LoopCall.sleep,
          LoopCall.pause_block, LoopCall.cancel_disable]) ∧
      (p.1 = LoopCall.sleep → p.2.cancel_enabled = true ∧ p.2.pause_blocked = false)) ∧
    end_state game_loop_entry (game_loop_calls n) = game_loop_entry ∧
    game_loop_entry = ⟨false, false, true⟩ ∧
    game_loop_body.drop 5 =
      [LoopCall.sem_post, LoopCall.end_time, LoopCall.cancel_enable, LoopCall.pause_unblock,
       LoopCall.compute_sleep, LoopCall.sleep, LoopCall.pause_block,
       LoopCall.cancel_disable] := by
  refine ⟨?_, game_loop_end n, by decide, by decide⟩
  intro p hp
  have hb := game_loop_trace_mem n p hp
  clear hp
  revert p hb
  decide

theorem guard_excludes_cancel_witness :
    (LoopCall.crawl, (⟨true, false, true⟩ : ThreadState)) ∈ game_loop_trace 3 ∧
    ((LoopCall.crawl, (⟨true, false, true⟩ : ThreadState)).2.cancel_enabled = false ∧
      (LoopCall.crawl, (⟨true, false, true⟩ : ThreadState)).2.pause_blocked = true) :=
  ⟨by decide,
   ((guard_excludes_cancel 3).1 (LoopCall.crawl, ⟨true, false, true⟩) (by decide)).1 rfl⟩

/-! ## Timing for other tick intervals -/

theorem target_sleep_time_short (delay_time_ms : Nat) (hd : delay_time_ms < 1000) :
    target_sleep_time delay_time_ms = ⟨0, (delay_time_ms : Int) * 1000000⟩ := by
  unfold target_sleep_time
  rw [Nat.div_eq_of_lt hd, Nat.mod_eq_of_lt hd]
  simp

theorem game_loop_sleep_subsecond (delay_time_ms : Nat) (hd : delay_time_ms < 1000)
    (loop_start_time loop_end_time : timeval)
    (hs : 0 ≤ loop_start_time.tv_usec ∧ loop_start_time.tv_usec < 1000000)
    (he : 0 ≤ loop_end_time.tv_usec ∧ loop_end_time.tv_usec < 1000000)
    (hord : 0 ≤ elapsed_ns loop_start_time loop_end_time) :
    game_loop_sleep delay_time_ms loop_start_time loop_end_time =
      if elapsed_ns loop_start_time loop_end_time < (delay_time_ms : Int) * 1000000 then
        ⟨0, (delay_time_ms : Int) * 1000000 - elapsed_ns loop_start_time loop_end_time⟩
      else ⟨0, 0⟩ := by
  obtain ⟨ss, su⟩ := loop_start_time
  obtain ⟨es, eu⟩ := loop_end_time
  simp only [elapsed_ns] at hs he hord ⊢
  simp only [game_loop_sleep, target_sleep_time_short delay_time_ms hd, loop_elapsed,
    actual_sleep_time]
  by_cases hb : eu < su
  · simp only [hb, if_true]
    split_ifs <;> simp only [timespec.mk.injEq, and_true, true_and] <;> omega
  · simp only [hb, if_false]
    split_ifs <;> simp only [timespec.mk.injEq, and_true, true_and] <;> omega

/-- C21, evaluated at the failing input. With a tick interval of 1500 ms the
target is 1 s + 500000000 ns; for a tick that took 600000 us the branch of
lines 407-409 borrows a second, but line 413 then overwrites the nanosecond
field with `target.tv_nsec - usec * 1000`: the computed sleep is 0 s and
-100000000 ns, where max(0, target - elapsed) is 900000000 ns. For every tick
interval below 1000 ms the computed sleep is max(0, target - elapsed), with
seconds not negative and nanoseconds in [0, 10^9). -/
theorem game_loop_sleep_long :
    target_sleep_time 1500 = ⟨1, 500000000⟩ ∧
    elapsed_ns ⟨1700000000, 0⟩ ⟨1700000000, 600000⟩ = 600000000 ∧
    game_loop_sleep 1500 ⟨1700000000, 0⟩ ⟨1700000000, 600000⟩ = ⟨0, -100000000⟩ ∧
    max 0 ((1500 : Int) * 1000000 - elapsed_ns ⟨1700000000, 0⟩ ⟨1700000000, 600000⟩)
      = 900000000 ∧
    (∀ (delay_time_ms : Nat) (loop_start_time loop_end_time : timeval),
      delay_time_ms < 1000 →
      0 ≤ loop_start_time.tv_usec ∧ loop_start_time.tv_usec < 1000000 →
      0 ≤ loop_end_time.tv_usec ∧ loop_end_time.tv_usec < 1000000 →
      0 ≤ elapsed_ns loop_start_time loop_end_time →
      (game_loop_sleep delay_time_ms loop_start_time loop_end_time).tv_sec * 1000000000 +
        (game_loop_sleep delay_time_ms loop_start_time loop_end_time).tv_nsec =
        max 0 ((delay_time_ms : Int) * 1000000 - elapsed_ns loop_start_time loop_end_time) ∧
      0 ≤ (game_loop_sleep delay_time_ms loop_start_time loop_end_time).tv_sec ∧
      0 ≤ (game_loop_sleep delay_time_ms loop_start_time loop_end_time).tv_nsec ∧
      (game_loop_sleep delay_time_ms loop_start_time loop_end_time).tv_nsec < 1000000000) := by
  refine ⟨by decide, by decide, by decide, by decide, ?_⟩
  intro d st en hd hs he hord
  have hr := game_loop_sleep_subsecond d hd st en hs he hord
  by_cases hlt : elapsed_ns st en < (d : Int) * 1000000
  · rw [if_pos hlt] at hr
    rw [hr]
    refine ⟨?_, ?_, ?_, ?_⟩
    · rw [max_eq_right (by omega)]
      simp
    · simp
    · simp only; omega
    · simp only; omega
  · rw [if_neg hlt] at hr
    rw [hr]
    refine ⟨?_, ?_, ?_, ?_⟩
    · rw [max_eq_left (by omega)]
      simp
    · simp
    · simp
    · simp

theorem game_loop_sleep_long_witness :
    (game_loop_sleep 500 ⟨1700000000, 900000⟩ ⟨1700000001, 100000⟩).tv_sec * 1000000000 +
      (game_loop_sleep 500 ⟨1700000000, 900000⟩ ⟨1700000001, 100000⟩).tv_nsec =
      max 0 (((500 : Nat) : Int) * 1000000 -
        elapsed_ns ⟨1700000000, 900000⟩ ⟨1700000001, 100000⟩) ∧
    game_loop_sleep 500 ⟨1700000000, 900000⟩ ⟨1700000001, 100000⟩ = ⟨0, 300000000⟩ :=
  ⟨(game_loop_sleep_long.2.2.2.2 500 ⟨1700000000, 900000⟩ ⟨1700000001, 100000⟩ (by decide)
      (by decide) (by decide) (by decide)).1,
   by decide⟩

/-! ## The frame buffer -/

theorem regen_row_length (s : Snake) (food : GridCell) (y n x : Nat) (buffer : List Char) :
    (regen_row s food y n x buffer).length = buffer.length + n := by
  rw [regen_row_eq]
  simp

theorem regen_rows_length (s : Snake) (food : GridCell) (width m y : Nat)
    (buffer : List Char) :
    (regen_rows s food width m y buffer).length = buffer.length + m * (width + 2) := by
  induction m generalizing y buffer with
  | zero => simp [regen_rows]
  | succ m ih =>
    rw [regen_rows, ih, List.length_append, regen_row_length]
    simp only [List.length_cons, List.length_nil, Nat.add_mul, Nat.one_mul]
    omega

theorem regen_buffer_written_eq (s : Snake) (food : GridCell) (width height : Nat) :
    regen_buffer_written s food width height =
      if height = 0 then 1 else height * (width + 2) := by
  unfold regen_buffer_written
  simp only [regen_rows_length, List.length_nil, Nat.zero_add]
  by_cases h0 : height = 0
  · subst h0
    simp
  · have hpos : height > 0 := by omega
    have h2 : 2 ≤ height * (width + 2) := by
      calc 2 ≤ 1 * (width + 2) := by omega
        _ ≤ height * (width + 2) := Nat.mul_le_mul_right _ (by omega)
    rw [if_pos hpos, if_neg h0]
    generalize height * (width + 2) = n at h2
    omega

theorem main_buffer_size_eq (w h : Nat) (h1 : 1 ≤ h) (hfit : (w + 1) * h * 4 < UINT_MOD) :
    main_buffer_size w h = (w + 1) * h * 4 := by
  have hle2 : w + 1 ≤ (w + 1) * h := Nat.le_mul_of_pos_right _ (by omega)
  have hw : w + 1 < UINT_MOD := by
    generalize (w + 1) * h = p at hfit hle2
    omega
  have hp : (w + 1) * h < UINT_MOD := by
    generalize (w + 1) * h = p at hfit
    omega
  unfold main_buffer_size
  rw [Nat.mod_eq_of_lt hw, Nat.mod_eq_of_lt hp, Nat.mul_one, Nat.mod_eq_of_lt hfit]

/-- C22, evaluated at the failing input. For a terminal of 65535 columns and
16384 rows `(width + 1) * height * 4` is 2^32, so `main` computes a buffer
size of 0, while `regen_buffer` writes 1073758208 bytes; for a terminal of 0
rows the buffer size is 0 and `regen_buffer` writes the terminating NUL. When
`(width + 1) * height * 4` is below 2^32 and `height` is at least 1, the bytes
written, `height * (width + 2)`, do not exceed the buffer size. -/
theorem frame_buffer_overflow (s : Snake) (food : GridCell) :
    main_buffer_size 65535 16384 = 0 ∧
    regen_buffer_written s food 65535 16384 = 1073758208 ∧
    (∀ w, main_buffer_size w 0 = 0 ∧ regen_buffer_written s food w 0 = 1) ∧
    (∀ w h, 1 ≤ h → (w + 1) * h * 4 < UINT_MOD →
      regen_buffer_written s food w h = h * (w + 2) ∧
      regen_buffer_written s food w h ≤ main_buffer_size w h) := by
  refine ⟨by decide, ?_, ?_, ?_⟩
  · rw [regen_buffer_written_eq]
    decide
  · intro w
    refine ⟨?_, ?_⟩
    · simp [main_buffer_size]
    · rw [regen_buffer_written_eq]
      rfl
  · intro w h h1 hfit
    have hw : regen_buffer_written s food w h = h * (w + 2) := by
      rw [regen_buffer_written_eq, if_neg (by omega)]
    refine ⟨hw, ?_⟩
    rw [hw, main_buffer_size_eq w h h1 hfit]
    calc h * (w + 2) = (w + 2) * h := Nat.mul_comm _ _
      _ ≤ ((w + 1) * 4) * h := Nat.mul_le_mul_right _ (by omega)
      _ = (w + 1) * h * 4 := by
        rw [Nat.mul_assoc, Nat.mul_comm 4 h, Nat.mul_assoc]

theorem frame_buffer_overflow_witness :
    regen_buffer_written (main_snake 10 10) ⟨5, 4⟩ 10 10 = 10 * (10 + 2) ∧
    regen_buffer_written (main_snake 10 10) ⟨5, 4⟩ 10 10 ≤ main_buffer_size 10 10 ∧
    main_buffer_size 10 10 = 440 :=
  have h := (frame_buffer_overflow (main_snake 10 10) ⟨5, 4⟩).2.2.2 10 10 (by decide)
    (by decide)
  ⟨h.1, h.2, by decide⟩

end SnakeGame
